import Mathlib

/-!
# Eye-Spy: the position / proximity simulation of `src/App.js`

A shallow embedding of the simulation logic of the React component `App`
(`updateSpeedAndLocation`, `checkNearbyCameras`, `geodesic`, `resetPosition`)
and theorems about it.

The program is written once, generically in the number type `α` that stands for
the JavaScript `Number`.  Two number models are used:

* `F64`, radix-2 floating point with a 53-bit significand and
  round-to-nearest-even (the arithmetic of IEEE-754 binary64 on finite values in
  the normal range; exponent overflow, subnormals, NaN, infinities and the sign
  of zero are not modelled).  It decides the claims that depend on rounding.
* `ℝ`, exact arithmetic with the real `sin`, `cos`, `sqrt` and `atan2`.  It
  decides the claims about the haversine formula.

The functions of the JavaScript standard library (`Math.sin`, `toFixed`, ...)
are not part of the repository; they are the fields of the class `MathLib`.
-/

namespace EyeSpy

/-! ## The JavaScript library functions used by `App.js` -/

/-- The members of `Math` that `App.js` calls and whose results ECMAScript leaves
to the implementation, over a number model `α`. -/
class MathLib (α : Type) where
  /-- The constant `Math.PI`. -/
  PI : α
  /-- The function `Math.sin`. -/
  sin : α → α
  /-- The function `Math.cos`. -/
  cos : α → α
  /-- The function `Math.sqrt`. -/
  sqrt : α → α
  /-- The function `Math.atan2(y, x)`. -/
  atan2 : α → α → α

/-- The library functions that `App.js` calls and that ECMAScript defines exactly.
`Math.floor` yields an integral Number, modelled as `Int`. -/
class NumberLib (α : Type) where
  /-- The function `Math.floor`. -/
  floor : α → Int
  /-- The method `Number.prototype.toFixed(digits)`. -/
  toFixed : α → Nat → String

/-- The digits that `toFixed` prints for the integer `n` of hundredths, thousandths,
... (`digits` decimal places): the decimal digits of `n`, padded with zeros on the
left to at least `digits + 1` characters, with a point before the last `digits`. -/
def fixedDigits (n digits : Nat) : String :=
  let text := (Nat.toDigits 10 n).asString
  let padded := String.mk (List.replicate (digits + 1 - text.length) (Char.ofNat 48)) ++ text
  if digits = 0 then padded
  else (padded.take (padded.length - digits)) ++ "." ++ (padded.drop (padded.length - digits))

/-! ## The program -/

section Program

variable {α : Type} [Add α] [Sub α] [Mul α] [Div α] [LT α]
  [DecidableRel (fun a b : α => a < b)] [NatCast α] [OfScientific α] [MathLib α]
  [NumberLib α]

/-- Source line 8: `const LAT_START = 12.9716;` -/
def LAT_START : α := 12.9716

/-- Source line 9: `const LON_START = 77.5946;` (Bangalore) -/
def LON_START : α := 77.5946

/-- Source line 10: `const LAT_END = 12.2958;` -/
def LAT_END : α := 12.2958

/-- Source line 11: `const LON_END = 76.6394;` (Mysore) -/
def LON_END : α := 76.6394

/-- Source lines 14-19: the four camera waypoints, `[lat, lon]` pairs. -/
def aiCameraLocations : List (α × α) :=
  [ (LAT_START + 0.2 * (LAT_END - LAT_START), LON_START + 0.2 * (LON_END - LON_START)),
    (LAT_START + 0.4 * (LAT_END - LAT_START), LON_START + 0.4 * (LON_END - LON_START)),
    (LAT_START + 0.6 * (LAT_END - LAT_START), LON_START + 0.6 * (LON_END - LON_START)),
    (LAT_START + 0.8 * (LAT_END - LAT_START), LON_START + 0.8 * (LON_END - LON_START)) ]

/-- The React state of `App` (source lines 38-42). -/
structure AppState (α : Type) where
  progress : α
  speed : Int
  alertMessage : String
  distanceToCamera : String
  vehiclePosition : α × α
deriving DecidableEq

/-- The initial values passed to `useState` (source lines 38-42). -/
def initialState : AppState α :=
  { progress := 0.0
    speed := 0
    alertMessage := ""
    distanceToCamera := "- km"
    vehiclePosition := (LAT_START, LON_START) }

/-- Source lines 95-104: the haversine distance in km between two `[lat, lon]`
points given in degrees. -/
def geodesic (loc1 loc2 : α × α) : α :=
  let R : α := (6371 : Nat)
  let dLat := (loc2.1 - loc1.1) * MathLib.PI / ((180 : Nat) : α)
  let dLon := (loc2.2 - loc1.2) * MathLib.PI / ((180 : Nat) : α)
  let a := MathLib.sin (dLat / ((2 : Nat) : α)) * MathLib.sin (dLat / ((2 : Nat) : α)) +
    MathLib.cos (loc1.1 * MathLib.PI / ((180 : Nat) : α)) *
      MathLib.cos (loc2.1 * MathLib.PI / ((180 : Nat) : α)) *
      MathLib.sin (dLon / ((2 : Nat) : α)) * MathLib.sin (dLon / ((2 : Nat) : α))
  let c := ((2 : Nat) : α) *
    MathLib.atan2 (MathLib.sqrt a) (MathLib.sqrt (((1 : Nat) : α) - a))
  R * c

/-- Source line 74: `const alertDistance = 1.00;` (1 km) -/
def alertDistance : α := 1.00

/-- The text passed to `setAlertMessage` on source line 82. -/
def cameraWarning : String := "⚠ Traffic Enforcement Cameras Ahead!"

/-- The call `Math.min(nearestDistance, distance)` where `nearestDistance` starts as
`Infinity`, which is `none` here. -/
def mathMin : Option α → α → Option α
  | none, distance => some distance
  | some nearest, distance => some (if distance < nearest then distance else nearest)

/-- The local variables of `checkNearbyCameras` that the `forEach` callback
updates, the pending `alertMessage` of the component, and the number of
`playAlertSound()` calls. -/
structure CameraScan (α : Type) where
  /-- Source line 75: `let nearestDistance = Infinity;` with `none` for `Infinity`. -/
  nearestDistance : Option α
  /-- Source line 76: `let cameraAlert = false;` -/
  cameraAlert : Bool
  /-- The value last given to `setAlertMessage`. -/
  alertMessage : String
  /-- The number of times `playAlertSound()` ran. -/
  alertSounds : Nat

/-- Source lines 78-87: the body of the `forEach` callback for one camera.  The
`return` on line 84 leaves the callback, so the update of `nearestDistance` on
line 86 is skipped for that camera and the loop goes on with the next one. -/
def cameraCallback (currentLocation : α × α) (vars : CameraScan α) (camera : α × α) :
    CameraScan α :=
  let distance := geodesic currentLocation camera
  if distance < alertDistance then
    { vars with
      cameraAlert := true
      alertMessage := cameraWarning
      alertSounds := vars.alertSounds + 1 }
  else
    { vars with nearestDistance := mathMin vars.nearestDistance distance }

/-- Source lines 75-87: the locals after `aiCameraLocations.forEach`. -/
def scanCameras (currentLocation : α × α) (alertMessage : String) : CameraScan α :=
  (aiCameraLocations (α := α)).foldl (cameraCallback currentLocation)
    { nearestDistance := none, cameraAlert := false, alertMessage := alertMessage,
      alertSounds := 0 }

/-- The template literal of source line 92 without its unit: `Infinity.toFixed(2)`
is the text `Infinity`. -/
def formatDistance : Option α → String
  | none => "Infinity"
  | some distance => NumberLib.toFixed distance 2

/-- Source lines 73-93. -/
def checkNearbyCameras (currentLocation : α × α) (st : AppState α) : AppState α :=
  let scan := scanCameras currentLocation st.alertMessage
  let alertMessage := if !scan.cameraAlert then "" else scan.alertMessage
  { st with
    alertMessage := alertMessage
    distanceToCamera := formatDistance scan.nearestDistance ++ " km" }

/-- Source line 56: `const progressIncrement = 0.01;` -/
def progressIncrement : α := 0.01

/-- Source lines 58-62: the updater function given to `setProgress`. -/
def progressUpdater (prev : α) : α :=
  let newProgress := prev + progressIncrement
  if newProgress > 1.0 then 0.0 else newProgress

/-- Source line 52: the speed computed from the sample `random` of
`Math.random()`. -/
def newSpeed (random : α) : Int :=
  NumberLib.floor (random * (((120 : Nat) : α) - ((20 : Nat) : α) + ((1 : Nat) : α))) + 20

/-- Source lines 51-71.  `progress` is the value of the state variable that the
closure of the current render holds (read on lines 65-66), `random` the sample of
`Math.random()`, and `st.progress` the stored value the updater receives. -/
def updateSpeedAndLocation (progress random : α) (st : AppState α) : AppState α :=
  let st1 := { st with speed := newSpeed random }
  let st2 := { st1 with progress := progressUpdater st1.progress }
  let newLat := LAT_START + (progress + progressIncrement) * (LAT_END - LAT_START)
  let newLon := LON_START + (progress + progressIncrement) * (LON_END - LON_START)
  let currentLocation := (newLat, newLon)
  let st3 := { st2 with vehiclePosition := currentLocation }
  checkNearbyCameras currentLocation st3

/-- Source lines 111-117. -/
def resetPosition (_st : AppState α) : AppState α :=
  { progress := 0.0
    speed := 0
    alertMessage := ""
    distanceToCamera := "- km"
    vehiclePosition := (LAT_START, LON_START) }

/-- The two operations that change the state: a timer tick with its random
sample, and a click on the reset button. -/
inductive Op (α : Type) where
  | tick (random : α)
  | reset

/-- One operation in normal flow: the tick reads the stored progress. -/
def step (st : AppState α) : Op α → AppState α
  | .tick random => updateSpeedAndLocation st.progress random st
  | .reset => resetPosition st

/-- The state reached from the initial state by a sequence of operations. -/
def run (ops : List (Op α)) : AppState α :=
  ops.foldl step initialState

end Program

/-! ## The number model `F64` -/

/-- A finite binary floating-point number `m * 2 ^ e`.  The results of the
operations below are canonical: zero is `⟨0, 0⟩` and every other number has a
53-bit significand, `2 ^ 52 ≤ |m| < 2 ^ 53`. -/
structure F64 where
  /-- The signed significand. -/
  m : Int
  /-- The exponent of two. -/
  e : Int
deriving DecidableEq

namespace F64

/-- Worker of `bitLength`, by recursion on a fuel that is at least the number. -/
def bitLengthAux : Nat → Nat → Nat
  | 0, _ => 0
  | fuel + 1, n => if n = 0 then 0 else bitLengthAux fuel (n / 2) + 1

/-- The number of binary digits of `n`: the least `k` with `n < 2 ^ k`. -/
def bitLength (n : Nat) : Nat := bitLengthAux n n

/-- Numerator and denominator of `n / (d * 2 ^ s)`. -/
def scale (n d : Nat) (s : Int) : Nat × Nat :=
  if 0 ≤ s then (n, d * 2 ^ s.toNat) else (n * 2 ^ (-s).toNat, d)

/-- The integer nearest to `n / d`, the even one of the two on a tie. -/
def roundQuot (n d : Nat) : Nat :=
  let q := n / d
  let r := n % d
  if 2 * r < d then q
  else if d < 2 * r then q + 1
  else if q % 2 = 0 then q else q + 1

/-- The positive rational `n / d` rounded to a 53-bit significand and its
exponent, to nearest, ties to even. -/
def roundPos (n d : Nat) : Nat × Int :=
  let s0 : Int := (bitLength n : Int) - (bitLength d : Int) - 53
  let p0 := scale n d s0
  let s := if p0.1 / p0.2 < 2 ^ 53 then s0 else s0 + 1
  let p := scale n d s
  let q := roundQuot p.1 p.2
  if q = 2 ^ 53 then (2 ^ 52, s + 1) else (q, s)

/-- The rational `n / d` rounded to the nearest floating-point number, ties to
even.  A zero denominator gives zero. -/
def round (n : Int) (d : Nat) : F64 :=
  if n = 0 ∨ d = 0 then ⟨0, 0⟩
  else
    let r := roundPos n.natAbs d
    ⟨if n < 0 then -(r.1 : Int) else (r.1 : Int), r.2⟩

/-- The dyadic number `n * 2 ^ e` rounded to the nearest floating-point number. -/
def ofDyadic (n e : Int) : F64 :=
  if 0 ≤ e then round (n * 2 ^ e.toNat) 1 else round n (2 ^ (-e).toNat)

/-- Floating-point addition: the exact sum, rounded. -/
def add (a b : F64) : F64 :=
  let e := min a.e b.e
  ofDyadic (a.m * 2 ^ (a.e - e).toNat + b.m * 2 ^ (b.e - e).toNat) e

/-- Floating-point subtraction: the exact difference, rounded. -/
def sub (a b : F64) : F64 :=
  let e := min a.e b.e
  ofDyadic (a.m * 2 ^ (a.e - e).toNat - b.m * 2 ^ (b.e - e).toNat) e

/-- Floating-point multiplication: the exact product, rounded. -/
def mul (a b : F64) : F64 :=
  ofDyadic (a.m * b.m) (a.e + b.e)

/-- Floating-point division: the exact quotient, rounded.  Division by zero,
which gives an infinity or NaN in JavaScript, is outside the model and gives
zero; `App.js` divides by the constants 180 and 2 only. -/
def div (a b : F64) : F64 :=
  let e := a.e - b.e
  let n := if b.m < 0 then -a.m else a.m
  if 0 ≤ e then round (n * 2 ^ e.toNat) b.m.natAbs
  else round n (b.m.natAbs * 2 ^ (-e).toNat)

/-- Comparison of the values `m * 2 ^ e`. -/
def lt (a b : F64) : Prop :=
  a.m * 2 ^ (a.e - min a.e b.e).toNat < b.m * 2 ^ (b.e - min a.e b.e).toNat

/-- Comparison of the values `m * 2 ^ e`. -/
def le (a b : F64) : Prop :=
  a.m * 2 ^ (a.e - min a.e b.e).toNat ≤ b.m * 2 ^ (b.e - min a.e b.e).toNat

/-- A decimal literal `mantissa * 10 ^ ±exponent`, rounded. -/
def ofScientific (mantissa : Nat) (exponentSign : Bool) (decimalExponent : Nat) : F64 :=
  if exponentSign then round mantissa (10 ^ decimalExponent)
  else round (mantissa * 10 ^ decimalExponent) 1

/-- The function `Math.floor`: the greatest integer not above `m * 2 ^ e`. -/
def floor (a : F64) : Int :=
  if 0 ≤ a.e then a.m * 2 ^ a.e.toNat else a.m / 2 ^ (-a.e).toNat

/-- The method `toFixed`: the nearest multiple of `10 ^ -digits`, the larger one
on a tie, printed with `digits` decimal places and the sign of the number.
(Numbers from `10 ^ 21` on, which JavaScript prints in another way, do not occur.) -/
def toFixed (a : F64) (digits : Nat) : String :=
  let p := scale (2 * a.m.natAbs * 10 ^ digits) 2 (-a.e)
  (if a.m < 0 then "-" else "") ++ fixedDigits ((p.1 + p.2 / 2) / p.2) digits

/-- The exact rational value `m * 2 ^ e`. -/
def toRat (a : F64) : ℚ := a.m * 2 ^ a.e

/-- The floating-point numbers proper: zero as `⟨0, 0⟩`, or a significand of
exactly 53 bits. -/
def Canonical (a : F64) : Prop :=
  (a.m = 0 ∧ a.e = 0) ∨ (2 ^ 52 ≤ a.m.natAbs ∧ a.m.natAbs < 2 ^ 53)

instance (a : F64) : Decidable a.Canonical :=
  inferInstanceAs (Decidable ((a.m = 0 ∧ a.e = 0) ∨ (2 ^ 52 ≤ a.m.natAbs ∧ a.m.natAbs < 2 ^ 53)))

instance : Add F64 := ⟨add⟩
instance : Sub F64 := ⟨sub⟩
instance : Mul F64 := ⟨mul⟩
instance : Div F64 := ⟨div⟩
instance : LT F64 := ⟨lt⟩
instance : LE F64 := ⟨le⟩
instance : NatCast F64 := ⟨fun n => round n 1⟩
instance : OfScientific F64 := ⟨ofScientific⟩
instance : NumberLib F64 := ⟨floor, toFixed⟩

instance decLt : DecidableRel (fun a b : F64 => a < b) :=
  fun a b => inferInstanceAs
    (Decidable (a.m * 2 ^ (a.e - min a.e b.e).toNat < b.m * 2 ^ (b.e - min a.e b.e).toNat))

instance decLe : DecidableRel (fun a b : F64 => a ≤ b) :=
  fun a b => inferInstanceAs
    (Decidable (a.m * 2 ^ (a.e - min a.e b.e).toNat ≤ b.m * 2 ^ (b.e - min a.e b.e).toNat))

end F64

/-- The progress values of one lap in `F64`: entry `i` is the stored progress
after `i` ticks from the start, as significand and exponent.  Entry 1 is the
literal `0.01`, entry 99 is `0.9900000000000007`. -/
def lapData : List (Int × Int) :=
  [(0, 0), (5764607523034235, -59), (5764607523034235, -58), (8646911284551352, -58),
   (5764607523034235, -57), (7205759403792794, -57), (8646911284551353, -57),
   (5044031582654956, -56), (5764607523034235, -56), (6485183463413514, -56),
   (7205759403792793, -56), (7926335344172072, -56), (8646911284551351, -56),
   (4683743612465315, -55), (5044031582654955, -55), (5404319552844595, -55),
   (5764607523034235, -55), (6124895493223875, -55), (6485183463413515, -55),
   (6845471433603155, -55), (7205759403792795, -55), (7566047373982435, -55),
   (7926335344172075, -55), (8286623314361715, -55), (8646911284551355, -55),
   (4503599627370497, -54), (4683743612465317, -54), (4863887597560137, -54),
   (5044031582654957, -54), (5224175567749777, -54), (5404319552844597, -54),
   (5584463537939417, -54), (5764607523034237, -54), (5944751508129057, -54),
   (6124895493223877, -54), (6305039478318697, -54), (6485183463413517, -54),
   (6665327448508337, -54), (6845471433603157, -54), (7025615418697977, -54),
   (7205759403792797, -54), (7385903388887617, -54), (7566047373982437, -54),
   (7746191359077257, -54), (7926335344172077, -54), (8106479329266897, -54),
   (8286623314361717, -54), (8466767299456537, -54), (8646911284551357, -54),
   (8827055269646177, -54), (4503599627370498, -53), (4593671619917908, -53),
   (4683743612465318, -53), (4773815605012728, -53), (4863887597560138, -53),
   (4953959590107548, -53), (5044031582654958, -53), (5134103575202368, -53),
   (5224175567749778, -53), (5314247560297188, -53), (5404319552844598, -53),
   (5494391545392008, -53), (5584463537939418, -53), (5674535530486828, -53),
   (5764607523034238, -53), (5854679515581648, -53), (5944751508129058, -53),
   (6034823500676468, -53), (6124895493223878, -53), (6214967485771288, -53),
   (6305039478318698, -53), (6395111470866108, -53), (6485183463413518, -53),
   (6575255455960928, -53), (6665327448508338, -53), (6755399441055748, -53),
   (6845471433603158, -53), (6935543426150568, -53), (7025615418697978, -53),
   (7115687411245388, -53), (7205759403792798, -53), (7295831396340208, -53),
   (7385903388887618, -53), (7475975381435028, -53), (7566047373982438, -53),
   (7656119366529848, -53), (7746191359077258, -53), (7836263351624668, -53),
   (7926335344172078, -53), (8016407336719488, -53), (8106479329266898, -53),
   (8196551321814308, -53), (8286623314361718, -53), (8376695306909128, -53),
   (8466767299456538, -53), (8556839292003948, -53), (8646911284551358, -53),
   (8736983277098768, -53), (8827055269646178, -53), (8917127262193588, -53)]

/-- The lap as floating-point numbers. -/
def lap : List F64 := lapData.map (fun p => ⟨p.1, p.2⟩)

/-! ## The number model `ℝ` -/

/-- The mathematical function that `Math.atan2(y, x)` approximates: the angle of
the point `(x, y)` in `(-π, π]`, and `0` at the origin. -/
noncomputable def realAtan2 (y x : ℝ) : ℝ :=
  if 0 < x then Real.arctan (y / x)
  else if x < 0 then
    if 0 ≤ y then Real.arctan (y / x) + Real.pi else Real.arctan (y / x) - Real.pi
  else if 0 < y then Real.pi / 2
  else if y < 0 then -(Real.pi / 2)
  else 0

noncomputable instance : MathLib ℝ where
  PI := Real.pi
  sin := Real.sin
  cos := Real.cos
  sqrt := Real.sqrt
  atan2 := realAtan2

noncomputable instance : NumberLib ℝ where
  floor x := ⌊x⌋
  toFixed x digits :=
    (if x < 0 then "-" else "") ++ fixedDigits ⌊|x| * 10 ^ digits + 1 / 2⌋.toNat digits

/-! ## Notions of the specification -/

/-- The number that `checkNearbyCameras` formats into `distanceToCamera`, as an
extended distance: `none` is `Infinity`. -/
def reportedDistance {α : Type} : Option α → WithTop α
  | none => ⊤
  | some distance => (distance : WithTop α)

/-- The minimum of the haversine distances from a position to the camera
waypoints (`⊤`, infinite, for an empty waypoint list). -/
def minimumDistance {α : Type} [LinearOrder α] [Add α] [Sub α] [Mul α] [Div α] [NatCast α]
    [OfScientific α] [MathLib α] (loc : α × α) : WithTop α :=
  ((aiCameraLocations (α := α)).map (geodesic loc)).minimum

/-- The linear interpolation of a progress value between the route endpoints. -/
def routePoint {α : Type} [Add α] [Sub α] [Mul α] [OfScientific α] (progress : α) : α × α :=
  (LAT_START + progress * (LAT_END - LAT_START), LON_START + progress * (LON_END - LON_START))

/-- The operations of `n` successive timer ticks, tick `i` drawing the sample
`random i`. -/
def ticks {α : Type} (random : Nat → α) (n : Nat) : List (Op α) :=
  (List.range n).map (fun i => Op.tick (random i))

/-! ## A concrete Math library, to instantiate theorems about every library -/

/-- A Math library on `F64` that is exact where ECMAScript fixes the result
(`sin(0) = 0`, `sqrt(0) = 0`, `sqrt(1) = 1`, `atan2(0, 1) = 0`) and takes the
leading term of the series elsewhere.  The theorems about `F64` hold for every
library; this one shows that their hypotheses can be met and gives them a concrete
input. -/
def sampleMathLib : MathLib F64 where
  PI := 3.141592653589793
  sin x := x
  cos _ := 1.0
  sqrt x := x
  atan2 y x := y / x

/-- The state after `n` ticks from the initial state, all with the random sample
0.5, under `sampleMathLib`. -/
def sampleRun (n : Nat) : AppState F64 :=
  letI : MathLib F64 := sampleMathLib
  run (ticks (fun _ => (0.5 : F64)) n)

/-! ## The camera scan of `checkNearbyCameras` -/

section Scan

variable {α : Type} [Add α] [Sub α] [Mul α] [Div α] [LT α]
  [DecidableRel (fun a b : α => a < b)] [NatCast α] [OfScientific α] [MathLib α]

theorem cameraWarning_ne_empty : cameraWarning ≠ "" := by decide!

/-- After the loop over any list of cameras, `cameraAlert` is set exactly when it
was set before or some camera of the list is nearer than `alertDistance`. -/
theorem foldl_cameraAlert (loc : α × α) (cams : List (α × α)) (vars : CameraScan α) :
    (cams.foldl (cameraCallback loc) vars).cameraAlert = true ↔
      vars.cameraAlert = true ∨ ∃ camera ∈ cams, geodesic loc camera < alertDistance := by
  induction cams generalizing vars with
  | nil => simp
  | cons camera rest ih =>
    rw [List.foldl_cons, ih]
    by_cases h : geodesic loc camera < alertDistance
    · simp [cameraCallback, h]
    · simp [cameraCallback, h]

/-- Whenever `cameraAlert` is set, the pending message is the warning. -/
theorem foldl_alertMessage (loc : α × α) (cams : List (α × α)) (vars : CameraScan α)
    (hvars : vars.cameraAlert = true → vars.alertMessage = cameraWarning) :
    (cams.foldl (cameraCallback loc) vars).cameraAlert = true →
      (cams.foldl (cameraCallback loc) vars).alertMessage = cameraWarning := by
  induction cams generalizing vars with
  | nil => simpa using hvars
  | cons camera rest ih =>
    rw [List.foldl_cons]
    apply ih
    by_cases h : geodesic loc camera < alertDistance
    · simp [cameraCallback, h]
    · simpa [cameraCallback, h] using hvars

/-- The alert flag of the scan: set exactly when some camera is nearer than
`alertDistance`.  This needs no property of the order of the numbers. -/
theorem scanCameras_cameraAlert (loc : α × α) (msg : String) :
    (scanCameras loc msg).cameraAlert = true ↔
      ∃ camera ∈ aiCameraLocations (α := α), geodesic loc camera < alertDistance := by
  simp [scanCameras, foldl_cameraAlert]

/-- The alert message that `checkNearbyCameras` stores: the warning when some
camera is nearer than `alertDistance`, the empty string otherwise. -/
theorem checkNearbyCameras_alertMessage [NumberLib α] (loc : α × α) (st : AppState α) :
    (checkNearbyCameras loc st).alertMessage =
      if ∃ camera ∈ aiCameraLocations (α := α), geodesic loc camera < alertDistance
      then cameraWarning else "" := by
  have hmsg := foldl_alertMessage loc (aiCameraLocations (α := α))
    { nearestDistance := none, cameraAlert := false, alertMessage := st.alertMessage,
      alertSounds := 0 } (by simp)
  have hflag := scanCameras_cameraAlert loc st.alertMessage
  by_cases h : ∃ camera ∈ aiCameraLocations (α := α), geodesic loc camera < alertDistance
  · have h1 := hflag.mpr h
    simp only [checkNearbyCameras, h1, if_pos h]
    simpa [scanCameras] using hmsg (by simpa [scanCameras] using h1)
  · have h1 : (scanCameras loc st.alertMessage).cameraAlert = false := by
      simpa using (not_congr hflag).mpr h
    simp [checkNearbyCameras, h1, if_neg h]

end Scan

section Ordered

variable {α : Type} [LinearOrder α] [Add α] [Sub α] [Mul α] [Div α] [NatCast α]
  [OfScientific α] [MathLib α]

omit [Add α] [Sub α] [Mul α] [Div α] [NatCast α] [OfScientific α] [MathLib α] in
/-- The minimum of a list is below a bound exactly when some entry is. -/
theorem minimum_lt_coe_iff (l : List α) (bound : α) :
    l.minimum < (bound : WithTop α) ↔ ∃ x ∈ l, x < bound := by
  induction l with
  | nil => simp
  | cons x rest ih => simp [List.minimum_cons, min_lt_iff, ih]

omit [Add α] [Sub α] [Mul α] [Div α] [NatCast α] [OfScientific α] [MathLib α] in
/-- The extended distance of `Math.min(nearestDistance, distance)`. -/
theorem reportedDistance_mathMin (nearest : Option α) (distance : α) :
    reportedDistance (mathMin nearest distance) =
      min (reportedDistance nearest) (distance : WithTop α) := by
  cases nearest with
  | none => simp [mathMin, reportedDistance]
  | some n =>
    simp only [mathMin, reportedDistance]
    rw [← WithTop.coe_min]
    congr 1
    rcases lt_or_le distance n with h | h
    · simp [h, min_eq_right h.le]
    · simp [not_lt.mpr h, min_eq_left h]

/-- The number left in `nearestDistance` by the loop over any list of cameras: the
minimum of its value before and of the distances to those cameras that are not
nearer than `alertDistance`. -/
theorem foldl_nearestDistance (loc : α × α) (cams : List (α × α)) (vars : CameraScan α) :
    reportedDistance (cams.foldl (cameraCallback loc) vars).nearestDistance =
      min (reportedDistance vars.nearestDistance)
        (((cams.filter (fun camera => ¬ geodesic loc camera < alertDistance)).map
          (geodesic loc)).minimum) := by
  induction cams generalizing vars with
  | nil => simp
  | cons camera rest ih =>
    rw [List.foldl_cons, ih]
    by_cases h : geodesic loc camera < alertDistance
    · rw [List.filter_cons_of_neg (by simpa using h)]
      simp [cameraCallback, h]
    · rw [List.filter_cons_of_pos (by simpa using h)]
      simp [cameraCallback, h, reportedDistance_mathMin, List.minimum_cons, min_assoc]

/-- The number that `checkNearbyCameras` reports: the minimum of the distances to
the cameras that are not nearer than `alertDistance`. -/
theorem scanCameras_nearestDistance (loc : α × α) (msg : String) :
    reportedDistance (scanCameras loc msg).nearestDistance =
      (((aiCameraLocations (α := α)).filter
        (fun camera => ¬ geodesic loc camera < alertDistance)).map (geodesic loc)).minimum := by
  rw [scanCameras, foldl_nearestDistance]
  simp [reportedDistance]

/-- The reported number is never below `alertDistance`. -/
theorem alertDistance_le_reported (loc : α × α) (msg : String) :
    ((alertDistance : α) : WithTop α) ≤ reportedDistance (scanCameras loc msg).nearestDistance := by
  rw [scanCameras_nearestDistance]
  apply List.le_minimum_of_forall_le
  intro d hd
  simp only [List.mem_map, List.mem_filter] at hd
  obtain ⟨camera, ⟨-, hfar⟩, rfl⟩ := hd
  exact WithTop.coe_le_coe.mpr (not_lt.mp (by simpa using hfar))

/-- Claim C1.  For every vehicle position `loc` and every prior state,
`checkNearbyCameras` leaves a non-empty alert message if and only if the minimum of
the haversine distances from `loc` to the camera waypoints is strictly less than
`alertDistance` (1.00 km), and otherwise it sets the alert message to the empty
string.  This holds in every number model whose order is linear. -/
theorem checkNearbyCameras_alert_iff [NumberLib α] (loc : α × α) (st : AppState α) :
    ((checkNearbyCameras loc st).alertMessage ≠ "" ↔
        minimumDistance loc < ((alertDistance : α) : WithTop α)) ∧
      (¬ minimumDistance loc < ((alertDistance : α) : WithTop α) →
        (checkNearbyCameras loc st).alertMessage = "") := by
  have hmin : minimumDistance loc < ((alertDistance : α) : WithTop α) ↔
      ∃ camera ∈ aiCameraLocations (α := α), geodesic loc camera < alertDistance := by
    rw [minimumDistance, minimum_lt_coe_iff]
    constructor
    · rintro ⟨x, hx, hlt⟩
      obtain ⟨camera, hcam, rfl⟩ := List.mem_map.mp hx
      exact ⟨camera, hcam, hlt⟩
    · rintro ⟨camera, hcam, hlt⟩
      exact ⟨_, List.mem_map.mpr ⟨camera, hcam, rfl⟩, hlt⟩
  rw [checkNearbyCameras_alertMessage, hmin]
  by_cases h : ∃ camera ∈ aiCameraLocations (α := α), geodesic loc camera < alertDistance
  · simp [h, cameraWarning_ne_empty]
  · simp [h]

end Ordered

section Reset

variable {α : Type} [OfScientific α]

/-- Claim C9.  For every prior state, `resetPosition` yields the state with
progress 0, the vehicle at the route start `[LAT_START, LON_START]`, speed 0, an
empty alert message and the placeholder `- km` as displayed distance; the result is
the same for every two prior states. -/
theorem resetPosition_eq (st other : AppState α) :
    (resetPosition st).progress = 0.0 ∧
      (resetPosition st).vehiclePosition = (LAT_START, LON_START) ∧
      (resetPosition st).speed = 0 ∧
      (resetPosition st).alertMessage = "" ∧
      (resetPosition st).distanceToCamera = "- km" ∧
      resetPosition st = resetPosition other :=
  ⟨rfl, rfl, rfl, rfl, rfl, rfl⟩

end Reset

/-! ## The haversine distance in exact arithmetic -/

section Haversine

/-- In exact arithmetic the haversine distance from a point to itself is zero. -/
theorem geodesic_same_point (p : ℝ × ℝ) : geodesic p p = 0 := by
  simp [geodesic, MathLib.sin, MathLib.atan2, MathLib.sqrt, realAtan2]

/-- Claim C8.  For every point `p = [lat, lon]`, `geodesic(p, p)` equals 0 (exact
arithmetic on real coordinates). -/
theorem geodesic_self (p : ℝ × ℝ) : geodesic p p = 0 :=
  geodesic_same_point p

/-- The vehicle position that a tick computes. -/
theorem updateSpeedAndLocation_vehiclePosition {α : Type} [Add α] [Sub α] [Mul α] [Div α]
    [LT α] [DecidableRel (fun a b : α => a < b)] [NatCast α] [OfScientific α] [MathLib α]
    [NumberLib α] (progress random : α) (st : AppState α) :
    (updateSpeedAndLocation progress random st).vehiclePosition =
      routePoint (progress + progressIncrement) := rfl

/-- The progress that a tick stores. -/
theorem updateSpeedAndLocation_progress {α : Type} [Add α] [Sub α] [Mul α] [Div α]
    [LT α] [DecidableRel (fun a b : α => a < b)] [NatCast α] [OfScientific α] [MathLib α]
    [NumberLib α] (progress random : α) (st : AppState α) :
    (updateSpeedAndLocation progress random st).progress = progressUpdater st.progress := rfl

/-- The alert message that a tick stores is the one of `checkNearbyCameras` at the
new position. -/
theorem updateSpeedAndLocation_alertMessage {α : Type} [Add α] [Sub α] [Mul α] [Div α]
    [LT α] [DecidableRel (fun a b : α => a < b)] [NatCast α] [OfScientific α] [MathLib α]
    [NumberLib α] (progress random : α) (st : AppState α) :
    (updateSpeedAndLocation progress random st).alertMessage =
      if ∃ camera ∈ aiCameraLocations (α := α),
        geodesic (routePoint (progress + progressIncrement)) camera < alertDistance
      then cameraWarning else "" := by
  rw [updateSpeedAndLocation]
  exact checkNearbyCameras_alertMessage _ _

/-- The camera waypoints are the route points at 0.2, 0.4, 0.6 and 0.8. -/
theorem aiCameraLocations_eq_routePoints {α : Type} [Add α] [Sub α] [Mul α]
    [OfScientific α] :
    aiCameraLocations (α := α) =
      [routePoint 0.2, routePoint 0.4, routePoint 0.6, routePoint 0.8] := rfl

/-- The ticks at the cameras in exact arithmetic, which is not the arithmetic of the
program.  For each `k` in 1..4 (here `k.val + 1`), a tick executed with stored
progress `0.2 * k - 0.01` computes a vehicle position equal to
the `k`-th camera waypoint, the haversine distance from it to that waypoint is 0,
and the alert is activated. -/
theorem tick_lands_on_camera (k : Fin 4) (random : ℝ) (st : AppState ℝ) :
    ∃ camera, (aiCameraLocations (α := ℝ))[k.val]? = some camera ∧
      (step { st with progress := 0.2 * ((k.val + 1 : ℕ) : ℝ) - 0.01 }
        (.tick random)).vehiclePosition = camera ∧
      geodesic (step { st with progress := 0.2 * ((k.val + 1 : ℕ) : ℝ) - 0.01 }
        (.tick random)).vehiclePosition camera = 0 ∧
      (step { st with progress := 0.2 * ((k.val + 1 : ℕ) : ℝ) - 0.01 }
        (.tick random)).alertMessage = cameraWarning := by
  have hpos : (aiCameraLocations (α := ℝ))[k.val]? =
      some (routePoint (0.2 * ((k.val + 1 : ℕ) : ℝ) - 0.01 + progressIncrement)) := by
    rw [aiCameraLocations_eq_routePoints, progressIncrement]
    fin_cases k <;> simp <;> norm_num
  have hmem : routePoint (0.2 * ((k.val + 1 : ℕ) : ℝ) - 0.01 + progressIncrement) ∈
      aiCameraLocations (α := ℝ) := List.getElem?_mem hpos
  simp only [step, updateSpeedAndLocation_vehiclePosition, updateSpeedAndLocation_alertMessage]
  refine ⟨_, hpos, rfl, geodesic_same_point _, ?_⟩
  rw [if_pos]
  exact ⟨_, hmem, by rw [geodesic_same_point]; norm_num [alertDistance]⟩

/-- Claim C2 fails for a vehicle standing on the first camera waypoint
`aiCameraLocations[0] = routePoint 0.2`, the position of the 20th tick (exact
arithmetic): the minimum distance to the waypoints is at most 0, yet the number that
`checkNearbyCameras` reports is at least `alertDistance` and so differs from the
minimum. -/
theorem reported_distance_skips_near_camera (msg : String) :
    minimumDistance (routePoint (0.2 : ℝ)) ≤ 0 ∧
      ((alertDistance : ℝ) : WithTop ℝ) ≤
        reportedDistance (scanCameras (routePoint (0.2 : ℝ)) msg).nearestDistance ∧
      reportedDistance (scanCameras (routePoint (0.2 : ℝ)) msg).nearestDistance ≠
        minimumDistance (routePoint (0.2 : ℝ)) := by
  have hmin : minimumDistance (routePoint (0.2 : ℝ)) ≤ 0 := by
    rw [minimumDistance]
    have h0 : (0 : ℝ) ∈ (aiCameraLocations (α := ℝ)).map (geodesic (routePoint 0.2)) := by
      rw [aiCameraLocations_eq_routePoints]
      simp [geodesic_same_point]
    exact List.minimum_le_of_mem' h0
  have hrep := alertDistance_le_reported (routePoint (0.2 : ℝ)) msg
  refine ⟨hmin, hrep, ?_⟩
  intro heq
  rw [heq] at hrep
  have h01 : ((alertDistance : ℝ) : WithTop ℝ) ≤ ((0 : ℝ) : WithTop ℝ) := le_trans hrep hmin
  rw [WithTop.coe_le_coe] at h01
  norm_num [alertDistance] at h01

end Haversine

/-! ## The distance between the route endpoints -/

section RouteLength

theorem arctan_le_self_of_nonneg (t : ℝ) (ht : 0 ≤ t) : Real.arctan t ≤ t := by
  rcases ht.eq_or_lt with h | h
  · rw [← h, Real.arctan_zero]
  · have h1 : 0 < Real.arctan t := by
      rw [← Real.arctan_zero]
      exact Real.arctan_strictMono h
    have h2 := Real.lt_tan h1 (Real.arctan_lt_pi_div_two t)
    rw [Real.tan_arctan] at h2
    exact h2.le

/-- The angle `atan2(√a, √(1 - a))` of the haversine formula lies between `√a`
and `√a / √(1 - a)`. -/
theorem atan2_sqrt_bounds (a : ℝ) (h0 : 0 ≤ a) (h1 : a < 1) :
    √a ≤ realAtan2 (√a) (√(1 - a)) ∧ realAtan2 (√a) (√(1 - a)) ≤ √a / √(1 - a) := by
  have hpos : 0 < √(1 - a) := Real.sqrt_pos.mpr (by linarith)
  have hs0 : 0 ≤ √a := Real.sqrt_nonneg a
  have hs1 : √a < 1 := by
    rw [← Real.sqrt_one]
    exact Real.sqrt_lt_sqrt h0 h1
  rw [realAtan2, if_pos hpos]
  constructor
  · have harc : Real.arcsin (√a) = Real.arctan (√a / √(1 - a)) := by
      rw [Real.arcsin_eq_arctan ⟨by linarith, hs1⟩, Real.sq_sqrt h0]
    rw [← harc]
    have h3 := Real.sin_le (Real.arcsin_nonneg.mpr hs0)
    rwa [Real.sin_arcsin (by linarith) hs1.le] at h3
  · exact arctan_le_self_of_nonneg _ (div_nonneg hs0 hpos.le)

/-- The haversine term `a` for the two route endpoints. -/
theorem geodesic_route_eq :
    geodesic ((LAT_START : ℝ), (LON_START : ℝ)) (LAT_END, LON_END) =
      6371 * (2 * realAtan2
        (√(Real.sin (0.3379 * Real.pi / 180) ^ 2 +
          Real.cos (12.9716 * Real.pi / 180) * Real.cos (12.2958 * Real.pi / 180) *
            Real.sin (0.4776 * Real.pi / 180) ^ 2))
        (√(1 - (Real.sin (0.3379 * Real.pi / 180) ^ 2 +
          Real.cos (12.9716 * Real.pi / 180) * Real.cos (12.2958 * Real.pi / 180) *
            Real.sin (0.4776 * Real.pi / 180) ^ 2)))) := by
  have hu : (12.2958 - 12.9716) * Real.pi / 180 / 2 = -(0.3379 * Real.pi / 180) := by ring
  have hv : (76.6394 - 77.5946) * Real.pi / 180 / 2 = -(0.4776 * Real.pi / 180) := by ring
  simp only [geodesic, LAT_START, LON_START, LAT_END, LON_END, MathLib.PI, MathLib.sin,
    MathLib.cos, MathLib.sqrt, MathLib.atan2, Nat.cast_ofNat, Nat.cast_one, hu, hv,
    Real.sin_neg]
  congr 3 <;> ring_nf

/-- Enclosure of `sin x` for a small positive angle enclosed by `lo` and `hi`. -/
theorem sin_enclosure (x lo hi : ℝ) (h0 : 0 < lo) (hlo : lo ≤ x) (hhi : x ≤ hi) (h1 : hi ≤ 1) :
    lo - hi ^ 3 / 4 ≤ Real.sin x ∧ Real.sin x ≤ hi := by
  have hx0 : 0 < x := lt_of_lt_of_le h0 hlo
  have h3 : x ^ 3 ≤ hi ^ 3 := pow_le_pow_left₀ hx0.le hhi 3
  have hs := Real.sin_gt_sub_cube hx0 (le_trans hhi h1)
  have hs2 := Real.sin_le hx0.le
  constructor <;> linarith

/-- Enclosure of `cos x` for a small positive angle enclosed by `lo` and `hi`. -/
theorem cos_enclosure (x lo hi : ℝ) (h0 : 0 < lo) (hlo : lo ≤ x) (hhi : x ≤ hi) (h1 : hi ≤ 1) :
    1 - hi ^ 2 / 2 ≤ Real.cos x ∧ Real.cos x ≤ 1 - lo ^ 2 / 2 + hi ^ 4 * (5 / 96) := by
  have hx0 : 0 < x := lt_of_lt_of_le h0 hlo
  have h2 : x ^ 2 ≤ hi ^ 2 := pow_le_pow_left₀ hx0.le hhi 2
  have h2' : lo ^ 2 ≤ x ^ 2 := pow_le_pow_left₀ h0.le hlo 2
  have h4 : x ^ 4 ≤ hi ^ 4 := pow_le_pow_left₀ hx0.le hhi 4
  have hc := Real.one_sub_sq_div_two_le_cos (x := x)
  have hb := Real.cos_bound (x := x) (by rw [abs_of_pos hx0]; linarith)
  rw [abs_of_pos hx0] at hb
  have hb2 := (abs_le.mp hb).2
  constructor <;> linarith

/-- Enclosure of the haversine term `a` of the two route endpoints. -/
theorem route_term_bounds :
    100911 / 1000000000 ≤ Real.sin (0.3379 * Real.pi / 180) ^ 2 +
        Real.cos (12.9716 * Real.pi / 180) * Real.cos (12.2958 * Real.pi / 180) *
          Real.sin (0.4776 * Real.pi / 180) ^ 2 ∧
      Real.sin (0.3379 * Real.pi / 180) ^ 2 +
        Real.cos (12.9716 * Real.pi / 180) * Real.cos (12.2958 * Real.pi / 180) *
          Real.sin (0.4776 * Real.pi / 180) ^ 2 ≤ 20189 / 200000000 := by
  have hp1 := Real.pi_gt_d4
  have hp2 := Real.pi_lt_d4
  obtain ⟨su1, su2⟩ := sin_enclosure (0.3379 * Real.pi / 180) (14743 / 2500000) (2359 / 400000)
    (by norm_num) (by linarith) (by linarith) (by norm_num)
  obtain ⟨sv1, sv2⟩ := sin_enclosure (0.4776 * Real.pi / 180) (41677 / 5000000) (41679 / 5000000)
    (by norm_num) (by linarith) (by linarith) (by norm_num)
  obtain ⟨c11, c12⟩ := cos_enclosure (12.9716 * Real.pi / 180) (22639 / 100000) (283 / 1250)
    (by norm_num) (by linarith) (by linarith) (by norm_num)
  obtain ⟨c21, c22⟩ := cos_enclosure (12.2958 * Real.pi / 180) (21459 / 100000) (21461 / 100000)
    (by norm_num) (by linarith) (by linarith) (by norm_num)
  have su1' : (58971 / 10000000 : ℝ) ≤ Real.sin (0.3379 * Real.pi / 180) := by
    refine le_trans ?_ su1; norm_num
  have sv1' : (10419 / 1250000 : ℝ) ≤ Real.sin (0.4776 * Real.pi / 180) := by
    refine le_trans ?_ sv1; norm_num
  have c11' : (97437 / 100000 : ℝ) ≤ Real.cos (12.9716 * Real.pi / 180) := by
    refine le_trans ?_ c11; norm_num
  have c21' : (97697 / 100000 : ℝ) ≤ Real.cos (12.2958 * Real.pi / 180) := by
    refine le_trans ?_ c21; norm_num
  have c12' : Real.cos (12.9716 * Real.pi / 180) ≤ (24363 / 25000 : ℝ) := by
    refine le_trans c12 ?_; norm_num
  have c22' : Real.cos (12.2958 * Real.pi / 180) ≤ (97709 / 100000 : ℝ) := by
    refine le_trans c22 ?_; norm_num
  have hsu0 : 0 ≤ Real.sin (0.3379 * Real.pi / 180) := le_trans (by norm_num) su1'
  have hsv0 : 0 ≤ Real.sin (0.4776 * Real.pi / 180) := le_trans (by norm_num) sv1'
  have hc10 : 0 ≤ Real.cos (12.9716 * Real.pi / 180) := le_trans (by norm_num) c11'
  have hc20 : 0 ≤ Real.cos (12.2958 * Real.pi / 180) := le_trans (by norm_num) c21'
  have hsu_lo := pow_le_pow_left₀ (by norm_num) su1' 2
  have hsu_hi := pow_le_pow_left₀ hsu0 su2 2
  have hsv_lo := pow_le_pow_left₀ (by norm_num) sv1' 2
  have hsv_hi := pow_le_pow_left₀ hsv0 sv2 2
  have hcc_lo := mul_le_mul c11' c21' (by norm_num) hc10
  have hcc_hi := mul_le_mul c12' c22' hc20 (by norm_num)
  have hprod_lo := mul_le_mul hcc_lo hsv_lo (by norm_num) (mul_nonneg hc10 hc20)
  have hprod_hi := mul_le_mul hcc_hi hsv_hi (pow_nonneg hsv0 2) (by norm_num)
  constructor
  · refine le_trans ?_ (add_le_add hsu_lo hprod_lo); norm_num
  · refine le_trans (add_le_add hsu_hi hprod_hi) ?_; norm_num

/-- In exact arithmetic the haversine distance between the route endpoints lies
strictly between 127.9 km and 128.1 km. -/
theorem route_length_enclosure :
    127.9 < geodesic ((LAT_START : ℝ), (LON_START : ℝ)) (LAT_END, LON_END) ∧
      geodesic ((LAT_START : ℝ), (LON_START : ℝ)) (LAT_END, LON_END) < 128.1 := by
  rw [geodesic_route_eq]
  obtain ⟨ha1, ha2⟩ := route_term_bounds
  generalize Real.sin (0.3379 * Real.pi / 180) ^ 2 +
    Real.cos (12.9716 * Real.pi / 180) * Real.cos (12.2958 * Real.pi / 180) *
      Real.sin (0.4776 * Real.pi / 180) ^ 2 = a at ha1 ha2 ⊢
  have h0 : 0 ≤ a := le_trans (by norm_num) ha1
  have h1 : a < 1 := lt_of_le_of_lt ha2 (by norm_num)
  obtain ⟨hlo, hhi⟩ := atan2_sqrt_bounds a h0 h1
  have hr1 : (2009 / 200000 : ℝ) ≤ √a := by
    rw [← Real.sqrt_sq (show (0 : ℝ) ≤ 2009 / 200000 by norm_num)]
    exact Real.sqrt_le_sqrt (le_trans (by norm_num) ha1)
  have hr2 : √a ≤ (157 / 15625 : ℝ) := by
    rw [← Real.sqrt_sq (show (0 : ℝ) ≤ 157 / 15625 by norm_num)]
    exact Real.sqrt_le_sqrt (le_trans ha2 (by norm_num))
  have hq : (49997 / 50000 : ℝ) ≤ √(1 - a) := by
    rw [← Real.sqrt_sq (show (0 : ℝ) ≤ 49997 / 50000 by norm_num)]
    exact Real.sqrt_le_sqrt (by linarith)
  have hdiv : √a / √(1 - a) ≤ (157 / 15625) / (49997 / 50000) :=
    div_le_div₀ (by norm_num) hr2 (by norm_num) hq
  constructor
  · have : (2009 / 200000 : ℝ) ≤ realAtan2 (√a) (√(1 - a)) := le_trans hr1 hlo
    linarith
  · have : realAtan2 (√a) (√(1 - a)) ≤ (157 / 15625) / (49997 / 50000) := le_trans hhi hdiv
    norm_num at this
    linarith

/-- Claim C7, refuted as stated: the haversine distance between the route endpoints
does not lie between 123 km and 126 km. -/
theorem route_length_not_within_123_126 :
    ¬ (123 ≤ geodesic ((LAT_START : ℝ), (LON_START : ℝ)) (LAT_END, LON_END) ∧
      geodesic ((LAT_START : ℝ), (LON_START : ℝ)) (LAT_END, LON_END) ≤ 126) := by
  intro h
  have h1 := route_length_enclosure.1
  linarith [h.2]

/-- Claim C7, amended.  The haversine distance computed by `geodesic` between the
route endpoints Bangalore (12.9716, 77.5946) and Mysore (12.2958, 76.6394), with
Earth radius 6371 km, lies between 127.9 km and 128.1 km (exact arithmetic). -/
theorem route_length_about_128 :
    127.9 ≤ geodesic ((LAT_START : ℝ), (LON_START : ℝ)) (LAT_END, LON_END) ∧
      geodesic ((LAT_START : ℝ), (LON_START : ℝ)) (LAT_END, LON_END) ≤ 128.1 :=
  ⟨route_length_enclosure.1.le, route_length_enclosure.2.le⟩

end RouteLength

/-! ## The order of `F64` -/

section Order

/-- A significand aligned to a smaller exponent `e` is the exact value divided by
`2 ^ e`. -/
theorem F64.aligned_toRat (c : F64) (e : ℤ) (h : e ≤ c.e) :
    ((c.m * 2 ^ (c.e - e).toNat : ℤ) : ℚ) = c.toRat / 2 ^ e := by
  have h2 : ((2 : ℚ) ^ (c.e - e).toNat) = 2 ^ (c.e - e) := by
    rw [← zpow_natCast, Int.toNat_of_nonneg (sub_nonneg.mpr h)]
  rw [F64.toRat]
  push_cast
  rw [h2, zpow_sub₀ (two_ne_zero), mul_div_assoc]

/-- The comparison of `F64` is the comparison of the exact values. -/
theorem F64.lt_iff_toRat (a b : F64) : a < b ↔ a.toRat < b.toRat := by
  have hpos : (0 : ℚ) < 2 ^ (min a.e b.e) := zpow_pos (by norm_num) _
  show a.m * 2 ^ (a.e - min a.e b.e).toNat < b.m * 2 ^ (b.e - min a.e b.e).toNat ↔ _
  rw [← Int.cast_lt (R := ℚ), F64.aligned_toRat a _ (min_le_left _ _),
    F64.aligned_toRat b _ (min_le_right _ _), div_lt_div_iff_of_pos_right hpos]

/-- The comparison `≤` of `F64` is the comparison of the exact values. -/
theorem F64.le_iff_toRat (a b : F64) : a ≤ b ↔ a.toRat ≤ b.toRat := by
  have hpos : (0 : ℚ) < 2 ^ (min a.e b.e) := zpow_pos (by norm_num) _
  show a.m * 2 ^ (a.e - min a.e b.e).toNat ≤ b.m * 2 ^ (b.e - min a.e b.e).toNat ↔ _
  rw [← Int.cast_le (R := ℚ), F64.aligned_toRat a _ (min_le_left _ _),
    F64.aligned_toRat b _ (min_le_right _ _), div_le_div_iff_of_pos_right hpos]

theorem F64.toRat_zero : (0.0 : F64).toRat = 0 := by
  have h : (0.0 : F64) = ⟨0, 0⟩ := by decide!
  simp [h, F64.toRat]

theorem F64.toRat_one : (1.0 : F64).toRat = 1 := by
  have h : (1.0 : F64) = ⟨2 ^ 52, -52⟩ := by decide!
  rw [h, F64.toRat]
  norm_num

end Order

/-! ## Rounding in `F64` -/

section Rounding

theorem F64.bitLengthAux_spec (fuel n : Nat) (hfuel : n ≤ fuel) (hn : n ≠ 0) :
    2 ^ (F64.bitLengthAux fuel n - 1) ≤ n ∧ n < 2 ^ F64.bitLengthAux fuel n ∧
      1 ≤ F64.bitLengthAux fuel n := by
  induction fuel generalizing n with
  | zero => omega
  | succ fuel ih =>
    rw [F64.bitLengthAux, if_neg hn]
    by_cases h2 : n / 2 = 0
    · have h1 : n = 1 := by omega
      have hz : F64.bitLengthAux fuel (n / 2) = 0 := by
        rw [h2]
        cases fuel <;> simp [F64.bitLengthAux]
      rw [hz, h1]
      simp
    · obtain ⟨ha, hb, hc⟩ := ih (n / 2) (by omega) h2
      refine ⟨?_, ?_, by omega⟩
      · have hk : F64.bitLengthAux fuel (n / 2) + 1 - 1 =
            (F64.bitLengthAux fuel (n / 2) - 1) + 1 := by omega
        rw [hk, pow_succ]
        omega
      · rw [pow_succ]
        omega

/-- The number of binary digits: `2 ^ (bitLength n - 1) ≤ n < 2 ^ bitLength n`. -/
theorem F64.bitLength_spec (n : Nat) (hn : n ≠ 0) :
    2 ^ (F64.bitLength n - 1) ≤ n ∧ n < 2 ^ F64.bitLength n ∧ 1 ≤ F64.bitLength n :=
  F64.bitLengthAux_spec n n le_rfl hn

/-- The integer nearest to `n / d` is within one half of it. -/
theorem F64.roundQuot_error (n d : Nat) (hd : 0 < d) :
    |(F64.roundQuot n d : ℚ) - (n : ℚ) / d| ≤ 1 / 2 := by
  have hdq : (0 : ℚ) < d := by exact_mod_cast hd
  have hdiv : (n : ℚ) / d = (n / d : ℕ) + ((n % d : ℕ) : ℚ) / d := by
    have h := Nat.div_add_mod n d
    have h' : (n : ℚ) = d * (n / d : ℕ) + (n % d : ℕ) := by exact_mod_cast h.symm
    field_simp
    linarith
  have hr : ((n % d : ℕ) : ℚ) < d := by exact_mod_cast Nat.mod_lt n hd
  have hr0 : (0 : ℚ) ≤ ((n % d : ℕ) : ℚ) := by positivity
  rw [hdiv, abs_le]
  unfold F64.roundQuot
  simp only
  split_ifs with h1 h2 h3
  · have : (2 : ℚ) * (n % d : ℕ) < d := by exact_mod_cast h1
    have hq : ((n % d : ℕ) : ℚ) / d < 1 / 2 := by
      rw [div_lt_iff₀ hdq]; linarith
    have hq0 : 0 ≤ ((n % d : ℕ) : ℚ) / d := div_nonneg hr0 hdq.le
    constructor <;> linarith
  · have : (d : ℚ) < 2 * (n % d : ℕ) := by exact_mod_cast h2
    have hq : 1 / 2 < ((n % d : ℕ) : ℚ) / d := by
      rw [lt_div_iff₀ hdq]; linarith
    have hq1 : ((n % d : ℕ) : ℚ) / d < 1 := by
      rw [div_lt_iff₀ hdq]; linarith
    push_cast
    constructor <;> linarith
  · have he : 2 * (n % d) = d := by omega
    have : (2 : ℚ) * (n % d : ℕ) = d := by exact_mod_cast he
    have hq : ((n % d : ℕ) : ℚ) / d = 1 / 2 := by
      rw [div_eq_iff hdq.ne']; linarith
    constructor <;> linarith
  · have he : 2 * (n % d) = d := by omega
    have : (2 : ℚ) * (n % d : ℕ) = d := by exact_mod_cast he
    have hq : ((n % d : ℕ) : ℚ) / d = 1 / 2 := by
      rw [div_eq_iff hdq.ne']; linarith
    push_cast
    constructor <;> linarith

theorem F64.scale_val (n d : Nat) (s : Int) (hd : 0 < d) :
    0 < (F64.scale n d s).2 ∧
      ((F64.scale n d s).1 : ℚ) / (F64.scale n d s).2 = (n : ℚ) / d / 2 ^ s := by
  have hdq : (0 : ℚ) < d := by exact_mod_cast hd
  unfold F64.scale
  split_ifs with h
  · refine ⟨by positivity, ?_⟩
    have h2 : (2 : ℚ) ^ s = 2 ^ s.toNat := by
      rw [← zpow_natCast, Int.toNat_of_nonneg h]
    push_cast
    rw [h2, div_div]
  · refine ⟨hd, ?_⟩
    have hs : 0 ≤ -s := by omega
    have h2 : (2 : ℚ) ^ s = (2 ^ (-s).toNat)⁻¹ := by
      rw [← zpow_natCast, Int.toNat_of_nonneg hs, zpow_neg, inv_inv]
    push_cast
    rw [h2]
    field_simp

/-- Rounding at a scale `s` at which the quotient has 53 bits: the result has a
53-bit significand and is within half a unit in the last place. -/
theorem F64.round_at_scale (n d : Nat) (s : Int) (hd : 0 < d)
    (hy1 : (2 : ℚ) ^ 52 ≤ (n : ℚ) / d / 2 ^ s) (hy2 : (n : ℚ) / d / 2 ^ s < 2 ^ 53)
    (r : Nat × Int)
    (hr : r = if F64.roundQuot (F64.scale n d s).1 (F64.scale n d s).2 = 2 ^ 53
      then (2 ^ 52, s + 1)
      else (F64.roundQuot (F64.scale n d s).1 (F64.scale n d s).2, s)) :
    2 ^ 52 ≤ r.1 ∧ r.1 < 2 ^ 53 ∧
      |(r.1 : ℚ) * 2 ^ r.2 - (n : ℚ) / d| ≤ (n : ℚ) / d * 2 ^ (-53 : ℤ) := by
  obtain ⟨hD, hval⟩ := F64.scale_val n d s hd
  have herr := F64.roundQuot_error (F64.scale n d s).1 (F64.scale n d s).2 hD
  rw [hval] at herr
  have hs : (0 : ℚ) < 2 ^ s := zpow_pos (by norm_num) s
  generalize F64.roundQuot (F64.scale n d s).1 (F64.scale n d s).2 = q at hr herr
  obtain ⟨he1, he2⟩ := abs_le.mp herr
  have hx : (n : ℚ) / d = (n : ℚ) / d / 2 ^ s * 2 ^ s := by
    rw [div_mul_cancel₀ _ hs.ne']
  generalize (n : ℚ) / d / 2 ^ s = y at hx hy1 hy2 herr he1 he2
  have hq1 : 2 ^ 52 ≤ q := by
    have h : ((2 ^ 52 - 1 : ℕ) : ℚ) < q := by
      have : ((2 ^ 52 - 1 : ℕ) : ℚ) = 2 ^ 52 - 1 := by norm_num
      rw [this]; linarith
    have := Nat.cast_lt.mp h
    omega
  have hq2 : q ≤ 2 ^ 53 := by
    have h : (q : ℚ) < ((2 ^ 53 + 1 : ℕ) : ℚ) := by
      have : ((2 ^ 53 + 1 : ℕ) : ℚ) = 2 ^ 53 + 1 := by norm_num
      rw [this]; linarith
    have := Nat.cast_lt.mp h
    omega
  have hval2 : (r.1 : ℚ) * 2 ^ r.2 = q * 2 ^ s := by
    rw [hr]
    split_ifs with h
    · simp only [h]
      rw [zpow_add₀ (by norm_num : (2 : ℚ) ≠ 0)]
      push_cast
      ring
    · rfl
  refine ⟨?_, ?_, ?_⟩
  · rw [hr]; split_ifs with h
    · exact le_rfl
    · exact hq1
  · rw [hr]; split_ifs with h
    · norm_num
    · exact lt_of_le_of_ne hq2 h
  · rw [hval2, hx]
    have h53 : (2 : ℚ) ^ (-53 : ℤ) = 1 / 2 ^ 53 := by norm_num [zpow_neg]
    rw [h53, ← sub_mul, abs_mul, abs_of_pos hs]
    have h1 : |(q : ℚ) - y| * 2 ^ s ≤ 1 / 2 * 2 ^ s :=
      mul_le_mul_of_nonneg_right herr hs.le
    have h2 : 1 / 2 * 2 ^ s ≤ y * 2 ^ s * (1 / 2 ^ 53) := by
      have : (1 : ℚ) / 2 ≤ y * (1 / 2 ^ 53) := by
        rw [mul_one_div, le_div_iff₀ (by positivity)]
        linarith
      calc 1 / 2 * 2 ^ s ≤ y * (1 / 2 ^ 53) * 2 ^ s :=
            mul_le_mul_of_nonneg_right this hs.le
        _ = y * 2 ^ s * (1 / 2 ^ 53) := by ring
    exact le_trans h1 h2

/-- The scale that `roundPos` first tries leaves a quotient of 53 or 54 bits. -/
theorem F64.first_scale_bounds (n d : Nat) (hn : 0 < n) (hd : 0 < d) :
    (2 : ℚ) ^ 52 < (n : ℚ) / d / 2 ^ ((F64.bitLength n : ℤ) - (F64.bitLength d : ℤ) - 53) ∧
      (n : ℚ) / d / 2 ^ ((F64.bitLength n : ℤ) - (F64.bitLength d : ℤ) - 53) < 2 ^ 54 := by
  obtain ⟨hn1, hn2, hn3⟩ := F64.bitLength_spec n hn.ne'
  obtain ⟨hd1, hd2, hd3⟩ := F64.bitLength_spec d hd.ne'
  generalize F64.bitLength n = L at hn1 hn2 hn3 ⊢
  generalize F64.bitLength d = K at hd1 hd2 hd3 ⊢
  have hnq : (0 : ℚ) < n := by exact_mod_cast hn
  have hdq : (0 : ℚ) < d := by exact_mod_cast hd
  have hLs : 2 ^ L = 2 * 2 ^ (L - 1) := by
    rw [← pow_succ']; congr 1; omega
  have hKs : 2 ^ K = 2 * 2 ^ (K - 1) := by
    rw [← pow_succ']; congr 1; omega
  have hA1 : (2 : ℚ) ^ L ≤ 2 * n := by
    have : 2 ^ L ≤ 2 * n := by omega
    exact_mod_cast this
  have hA2 : (n : ℚ) < 2 ^ L := by exact_mod_cast hn2
  have hB1 : (2 : ℚ) ^ K ≤ 2 * d := by
    have : 2 ^ K ≤ 2 * d := by omega
    exact_mod_cast this
  have hB2 : (d : ℚ) < 2 ^ K := by exact_mod_cast hd2
  have hA0 : (0 : ℚ) < 2 ^ L := by positivity
  have hB0 : (0 : ℚ) < 2 ^ K := by positivity
  have h2 : (2 : ℚ) ≠ 0 := by norm_num
  have hs : (2 : ℚ) ^ ((L : ℤ) - (K : ℤ) - 53) = 2 ^ L / 2 ^ K / 2 ^ 53 := by
    rw [zpow_sub₀ h2, zpow_sub₀ h2, zpow_natCast, zpow_natCast]
    norm_num
  have he : (n : ℚ) / d / (2 ^ L / 2 ^ K / 2 ^ 53) = n * 2 ^ K * 2 ^ 53 / (d * 2 ^ L) := by
    field_simp
    ring
  rw [hs, he]
  generalize (2 : ℚ) ^ L = A at hA1 hA2 hA0
  generalize (2 : ℚ) ^ K = B at hB1 hB2 hB0
  constructor
  · rw [lt_div_iff₀ (by positivity)]
    have h1 : (d : ℚ) * A < B * A := mul_lt_mul_of_pos_right hB2 hA0
    have h3 : B * A ≤ B * (2 * n) := mul_le_mul_of_nonneg_left hA1 hB0.le
    nlinarith
  · rw [div_lt_iff₀ (by positivity)]
    have h1 : (n : ℚ) * B < A * B := mul_lt_mul_of_pos_right hA2 hB0
    have h3 : A * B ≤ A * (2 * d) := mul_le_mul_of_nonneg_left hB1 hA0.le
    nlinarith

/-- The scale that `roundPos` settles on leaves a quotient of exactly 53 bits. -/
theorem F64.roundPos_scale (n d : Nat) (hn : 0 < n) (hd : 0 < d) :
    ∃ s : ℤ, (2 : ℚ) ^ 52 ≤ (n : ℚ) / d / 2 ^ s ∧ (n : ℚ) / d / 2 ^ s < 2 ^ 53 ∧
      F64.roundPos n d =
        if F64.roundQuot (F64.scale n d s).1 (F64.scale n d s).2 = 2 ^ 53
        then (2 ^ 52, s + 1)
        else (F64.roundQuot (F64.scale n d s).1 (F64.scale n d s).2, s) := by
  obtain ⟨hlo, hhi⟩ := F64.first_scale_bounds n d hn hd
  obtain ⟨hD, hval⟩ := F64.scale_val n d ((F64.bitLength n : ℤ) - (F64.bitLength d : ℤ) - 53) hd
  have htest : (F64.scale n d ((F64.bitLength n : ℤ) - (F64.bitLength d : ℤ) - 53)).1 /
        (F64.scale n d ((F64.bitLength n : ℤ) - (F64.bitLength d : ℤ) - 53)).2 < 2 ^ 53 ↔
      (n : ℚ) / d / 2 ^ ((F64.bitLength n : ℤ) - (F64.bitLength d : ℤ) - 53) < 2 ^ 53 := by
    rw [← hval, Nat.div_lt_iff_lt_mul hD, div_lt_iff₀ (by exact_mod_cast hD)]
    exact_mod_cast Iff.rfl
  by_cases h : (F64.scale n d ((F64.bitLength n : ℤ) - (F64.bitLength d : ℤ) - 53)).1 /
      (F64.scale n d ((F64.bitLength n : ℤ) - (F64.bitLength d : ℤ) - 53)).2 < 2 ^ 53
  · refine ⟨(F64.bitLength n : ℤ) - (F64.bitLength d : ℤ) - 53, hlo.le, htest.mp h, ?_⟩
    simp only [F64.roundPos, if_pos h]
  · have hge : (2 : ℚ) ^ 53 ≤
        (n : ℚ) / d / 2 ^ ((F64.bitLength n : ℤ) - (F64.bitLength d : ℤ) - 53) :=
      not_lt.mp (fun hlt => h (htest.mpr hlt))
    have hs1 : (n : ℚ) / d / 2 ^ ((F64.bitLength n : ℤ) - (F64.bitLength d : ℤ) - 53 + 1) =
        (n : ℚ) / d / 2 ^ ((F64.bitLength n : ℤ) - (F64.bitLength d : ℤ) - 53) / 2 := by
      rw [zpow_add₀ (by norm_num : (2 : ℚ) ≠ 0), zpow_one, div_div, div_div, div_div]
    refine ⟨(F64.bitLength n : ℤ) - (F64.bitLength d : ℤ) - 53 + 1, ?_, ?_, ?_⟩
    · rw [hs1]; linarith
    · rw [hs1]; linarith
    · simp only [F64.roundPos, if_neg h]

/-- The positive rational `n / d` rounded by `roundPos`: the significand has exactly
53 bits and the result is within the relative error `2 ^ -53` of `n / d`. -/
theorem F64.roundPos_spec (n d : Nat) (hn : 0 < n) (hd : 0 < d) :
    2 ^ 52 ≤ (F64.roundPos n d).1 ∧ (F64.roundPos n d).1 < 2 ^ 53 ∧
      |((F64.roundPos n d).1 : ℚ) * 2 ^ (F64.roundPos n d).2 - (n : ℚ) / d| ≤
        (n : ℚ) / d * 2 ^ (-53 : ℤ) := by
  obtain ⟨s, hy1, hy2, hr⟩ := F64.roundPos_scale n d hn hd
  exact F64.round_at_scale n d s hd hy1 hy2 _ hr

/-- Correctness of `round`: the result is a floating-point number proper, has the
sign of `n / d`, and differs from `n / d` by at most the relative error `2 ^ -53`,
which is half a unit in the last place. -/
theorem F64.round_spec (n : Int) (d : Nat) (hd : 0 < d) :
    (F64.round n d).Canonical ∧
      |(F64.round n d).toRat - (n : ℚ) / d| ≤ |(n : ℚ) / d| * 2 ^ (-53 : ℤ) := by
  have hdq : (0 : ℚ) < d := by exact_mod_cast hd
  by_cases hn : n = 0
  · subst hn
    simp [F64.round, F64.Canonical, F64.toRat]
  · have habs : 0 < n.natAbs := Int.natAbs_pos.mpr hn
    obtain ⟨h1, h2, h3⟩ := F64.roundPos_spec n.natAbs d habs hd
    have hround : F64.round n d =
        ⟨if n < 0 then -((F64.roundPos n.natAbs d).1 : Int) else (F64.roundPos n.natAbs d).1,
          (F64.roundPos n.natAbs d).2⟩ := by
      simp [F64.round, hn, hd.ne']
    rw [hround]
    generalize F64.roundPos n.natAbs d = r at h1 h2 h3
    have hN : ((n.natAbs : ℕ) : ℚ) = |(n : ℚ)| := by
      rw [Nat.cast_natAbs, Int.cast_abs]
    have hx0 : 0 ≤ ((n.natAbs : ℕ) : ℚ) / d := div_nonneg (Nat.cast_nonneg _) hdq.le
    by_cases hneg : n < 0
    · have hnq : (n : ℚ) < 0 := by exact_mod_cast hneg
      have hcast : (n : ℚ) = -((n.natAbs : ℕ) : ℚ) := by
        rw [hN, abs_of_neg hnq, neg_neg]
      constructor
      · right
        simp only [if_pos hneg, Int.natAbs_neg, Int.natAbs_ofNat]
        exact ⟨h1, h2⟩
      · have e1 : ((-(r.1 : ℤ) : ℤ) : ℚ) * 2 ^ r.2 - (n : ℚ) / d =
            -((r.1 : ℚ) * 2 ^ r.2 - ((n.natAbs : ℕ) : ℚ) / d) := by
          rw [hcast]; push_cast; ring
        have e2 : |(n : ℚ) / d| = ((n.natAbs : ℕ) : ℚ) / d := by
          rw [hcast, neg_div, abs_neg, abs_of_nonneg hx0]
        simp only [F64.toRat, if_pos hneg]
        rw [e1, e2, abs_neg]
        exact h3
    · have hnq : (0 : ℚ) ≤ n := by exact_mod_cast not_lt.mp hneg
      have hcast : (n : ℚ) = ((n.natAbs : ℕ) : ℚ) := by
        rw [hN, abs_of_nonneg hnq]
      constructor
      · right
        simp only [if_neg hneg, Int.natAbs_ofNat]
        exact ⟨h1, h2⟩
      · have e2 : |(n : ℚ) / d| = ((n.natAbs : ℕ) : ℚ) / d := by
          rw [hcast, abs_of_nonneg hx0]
        simp only [F64.toRat, if_neg hneg]
        rw [e2, hcast]
        exact_mod_cast h3

/-- Correctness of `ofDyadic`. -/
theorem F64.ofDyadic_spec (n e : Int) :
    (F64.ofDyadic n e).Canonical ∧
      |(F64.ofDyadic n e).toRat - (n : ℚ) * 2 ^ e| ≤ |(n : ℚ) * 2 ^ e| * 2 ^ (-53 : ℤ) := by
  unfold F64.ofDyadic
  split_ifs with h
  · have h2 : (2 : ℚ) ^ e = 2 ^ e.toNat := by
      rw [← zpow_natCast, Int.toNat_of_nonneg h]
    have := F64.round_spec (n * 2 ^ e.toNat) 1 (by norm_num)
    rw [h2]
    simpa using this
  · have hs : 0 ≤ -e := by omega
    have h2 : (2 : ℚ) ^ e = (2 ^ (-e).toNat)⁻¹ := by
      rw [← zpow_natCast, Int.toNat_of_nonneg hs, zpow_neg, inv_inv]
    have := F64.round_spec n (2 ^ (-e).toNat) (by positivity)
    rw [h2, ← div_eq_mul_inv]
    simpa using this

/-- Floating-point multiplication is the exact product, correctly rounded. -/
theorem F64.mul_spec (a b : F64) :
    (a * b).Canonical ∧
      |(a * b).toRat - a.toRat * b.toRat| ≤ |a.toRat * b.toRat| * 2 ^ (-53 : ℤ) := by
  have h := F64.ofDyadic_spec (a.m * b.m) (a.e + b.e)
  have hv : ((a.m * b.m : ℤ) : ℚ) * 2 ^ (a.e + b.e) = a.toRat * b.toRat := by
    rw [F64.toRat, F64.toRat, zpow_add₀ (by norm_num : (2 : ℚ) ≠ 0)]
    push_cast
    ring
  rw [hv] at h
  exact h

/-- The function `F64.floor` is the floor of the exact value. -/
theorem F64.floor_eq (a : F64) : F64.floor a = ⌊a.toRat⌋ := by
  unfold F64.floor F64.toRat
  split_ifs with h
  · have h2 : (2 : ℚ) ^ a.e = 2 ^ a.e.toNat := by
      rw [← zpow_natCast, Int.toNat_of_nonneg h]
    rw [h2]
    have : (a.m : ℚ) * 2 ^ a.e.toNat = ((a.m * 2 ^ a.e.toNat : ℤ) : ℚ) := by push_cast; ring
    rw [this, Int.floor_intCast]
  · have hs : 0 ≤ -a.e := by omega
    have h2 : (2 : ℚ) ^ a.e = (2 ^ (-a.e).toNat)⁻¹ := by
      rw [← zpow_natCast, Int.toNat_of_nonneg hs, zpow_neg, inv_inv]
    rw [h2, ← div_eq_mul_inv]
    have := Rat.floor_intCast_div_natCast a.m (2 ^ (-a.e).toNat)
    push_cast at this
    rw [this]

end Rounding

/-! ## Rounding is to nearest, ties to even -/

section Nearest

/-- On a tie the integer chosen by `roundQuot` is even. -/
theorem F64.roundQuot_tie (n d : Nat) (hd : 0 < d)
    (htie : |(F64.roundQuot n d : ℚ) - (n : ℚ) / d| = 1 / 2) : F64.roundQuot n d % 2 = 0 := by
  have hdq : (0 : ℚ) < d := by exact_mod_cast hd
  have hdiv : (n : ℚ) / d = (n / d : ℕ) + ((n % d : ℕ) : ℚ) / d := by
    have h := Nat.div_add_mod n d
    have h' : (n : ℚ) = d * (n / d : ℕ) + (n % d : ℕ) := by exact_mod_cast h.symm
    field_simp
    linarith
  have hr : ((n % d : ℕ) : ℚ) < d := by exact_mod_cast Nat.mod_lt n hd
  have hr0 : (0 : ℚ) ≤ ((n % d : ℕ) : ℚ) := by positivity
  rw [hdiv] at htie
  unfold F64.roundQuot at htie ⊢
  simp only at htie ⊢
  split_ifs at htie ⊢ with h1 h2 h3
  · exfalso
    have : (2 : ℚ) * (n % d : ℕ) < d := by exact_mod_cast h1
    have hq : ((n % d : ℕ) : ℚ) / d < 1 / 2 := by
      rw [div_lt_iff₀ hdq]; linarith
    have hq0 : 0 ≤ ((n % d : ℕ) : ℚ) / d := div_nonneg hr0 hdq.le
    rw [sub_add_cancel_left, abs_neg, abs_of_nonneg hq0] at htie
    linarith
  · exfalso
    have : (d : ℚ) < 2 * (n % d : ℕ) := by exact_mod_cast h2
    have hq : 1 / 2 < ((n % d : ℕ) : ℚ) / d := by
      rw [lt_div_iff₀ hdq]; linarith
    have hq1 : ((n % d : ℕ) : ℚ) / d < 1 := by
      rw [div_lt_iff₀ hdq]; linarith
    push_cast at htie
    have e : ((n / d : ℕ) : ℚ) + 1 - (((n / d : ℕ) : ℚ) + ((n % d : ℕ) : ℚ) / d) =
        1 - ((n % d : ℕ) : ℚ) / d := by ring
    rw [e, abs_of_pos (by linarith)] at htie
    linarith
  · exact h3
  · omega

/-- Among the floating-point numbers proper, none is nearer to `x` than
`q * 2 ^ s`, when `x / 2 ^ s` has 53 bits and `q` is within one half of it; and
another number can be equally near only if `q` is exactly one half away. -/
theorem F64.nearest_at_scale (x : ℚ) (s : ℤ) (q : ℕ) (hy1 : (2 : ℚ) ^ 52 ≤ x / 2 ^ s)
    (herr : |(q : ℚ) - x / 2 ^ s| ≤ 1 / 2) (w : F64) (hw : w.Canonical) :
    |(q : ℚ) * 2 ^ s - x| ≤ |w.toRat - x| ∧
      (w.toRat ≠ (q : ℚ) * 2 ^ s → |w.toRat - x| = |(q : ℚ) * 2 ^ s - x| →
        |(q : ℚ) - x / 2 ^ s| = 1 / 2) := by
  have hP : (0 : ℚ) < 2 ^ s := zpow_pos (by norm_num) s
  have hx : x = x / 2 ^ s * 2 ^ s := by rw [div_mul_cancel₀ _ hP.ne']
  generalize x / 2 ^ s = y at hx hy1 herr ⊢
  generalize hPdef : (2 : ℚ) ^ s = P at hP hx ⊢
  subst hx
  have hV : |(q : ℚ) * P - y * P| = |(q : ℚ) - y| * P := by
    rw [← sub_mul, abs_mul, abs_of_pos hP]
  have hVle : |(q : ℚ) - y| * P ≤ P / 2 := by
    have := mul_le_mul_of_nonneg_right herr hP.le
    linarith
  rw [hV]
  have h52 : (2 : ℚ) ^ 52 = 4503599627370496 := by norm_num
  rw [h52] at hy1
  have hyP : 4503599627370496 * P ≤ y * P := mul_le_mul_of_nonneg_right hy1 hP.le
  rcases hw with ⟨hm, he⟩ | ⟨hlo, hhi⟩
  · have hw0 : w.toRat = 0 := by simp [F64.toRat, hm]
    have hyabs : |y * P| = y * P := abs_of_nonneg (by nlinarith)
    rw [hw0, zero_sub, abs_neg, hyabs]
    constructor
    · linarith
    · intro _ heq
      exfalso
      linarith
  · by_cases hse : s ≤ w.e
    · have hk := F64.aligned_toRat w s hse
      rw [hPdef] at hk
      have hwk : w.toRat = ((w.m * 2 ^ (w.e - s).toNat : ℤ) : ℚ) * P := by
        rw [hk, div_mul_cancel₀ _ hP.ne']
      generalize (w.m * 2 ^ (w.e - s).toNat : ℤ) = k at hwk
      have hW : |w.toRat - y * P| = |(k : ℚ) - y| * P := by
        rw [hwk, ← sub_mul, abs_mul, abs_of_pos hP]
      rw [hW, hwk]
      by_cases hkq : k = (q : ℤ)
      · subst hkq
        constructor
        · simp
        · intro hne
          exact absurd (by push_cast; ring) hne
      · have hdist : (1 : ℚ) ≤ |(k : ℚ) - (q : ℚ)| := by
          have h1 : (1 : ℤ) ≤ |k - (q : ℤ)| := Int.one_le_abs (sub_ne_zero.mpr hkq)
          have : ((1 : ℤ) : ℚ) ≤ ((|k - (q : ℤ)| : ℤ) : ℚ) := Int.cast_le.mpr h1
          simpa using this
        have htri : |(k : ℚ) - (q : ℚ)| ≤ |(k : ℚ) - y| + |(q : ℚ) - y| := by
          have := abs_sub_le (k : ℚ) y (q : ℚ)
          rwa [abs_sub_comm y (q : ℚ)] at this
        constructor
        · exact mul_le_mul_of_nonneg_right (by linarith) hP.le
        · intro _ heq
          have hcancel : |(k : ℚ) - y| = |(q : ℚ) - y| :=
            mul_right_cancel₀ hP.ne' heq
          linarith
    · have he1 : w.e ≤ s - 1 := by omega
      have hz : (2 : ℚ) ^ w.e ≤ 2 ^ (s - 1) := zpow_le_zpow_right₀ (by norm_num) he1
      have hs1 : (2 : ℚ) ^ (s - 1) = P / 2 := by
        rw [zpow_sub₀ (by norm_num : (2 : ℚ) ≠ 0), zpow_one, hPdef]
      rw [hs1] at hz
      have hmabs : |(w.m : ℚ)| ≤ 9007199254740991 := by
        have h1 : |w.m| ≤ 9007199254740991 := by
          have := Int.natCast_natAbs w.m
          omega
        have : ((|w.m| : ℤ) : ℚ) ≤ ((9007199254740991 : ℤ) : ℚ) := Int.cast_le.mpr h1
        simpa using this
      have hwabs : |w.toRat| ≤ 9007199254740991 * (P / 2) := by
        rw [F64.toRat, abs_mul, abs_of_pos (zpow_pos (by norm_num : (0 : ℚ) < 2) w.e)]
        exact mul_le_mul hmabs hz (zpow_pos (by norm_num) _).le (by norm_num)
      have hge : P / 2 ≤ |w.toRat - y * P| := by
        have h1 : y * P - |w.toRat| ≤ |w.toRat - y * P| := by
          have := abs_sub_abs_le_abs_sub (y * P) w.toRat
          rw [abs_sub_comm (y * P) w.toRat] at this
          have hxa := le_abs_self (y * P)
          linarith
        linarith
      constructor
      · linarith
      · intro _ heq
        have h1 : P / 2 ≤ |(q : ℚ) - y| * P := by linarith
        have h2 : (1 : ℚ) / 2 * P ≤ |(q : ℚ) - y| * P := by linarith
        have h3 : (1 : ℚ) / 2 ≤ |(q : ℚ) - y| := le_of_mul_le_mul_right h2 hP
        linarith

/-- The result of `roundPos` is a nearest floating-point number to `n / d`, and
when another one is equally near, its significand is even. -/
theorem F64.roundPos_nearest (n d : Nat) (hn : 0 < n) (hd : 0 < d) (w : F64)
    (hw : w.Canonical) :
    |((F64.roundPos n d).1 : ℚ) * 2 ^ (F64.roundPos n d).2 - (n : ℚ) / d| ≤
        |w.toRat - (n : ℚ) / d| ∧
      (w.toRat ≠ ((F64.roundPos n d).1 : ℚ) * 2 ^ (F64.roundPos n d).2 →
        |w.toRat - (n : ℚ) / d| =
          |((F64.roundPos n d).1 : ℚ) * 2 ^ (F64.roundPos n d).2 - (n : ℚ) / d| →
        (F64.roundPos n d).1 % 2 = 0) := by
  obtain ⟨s, hy1, hy2, hr⟩ := F64.roundPos_scale n d hn hd
  obtain ⟨hD, hval⟩ := F64.scale_val n d s hd
  have herr := F64.roundQuot_error (F64.scale n d s).1 (F64.scale n d s).2 hD
  have htie := F64.roundQuot_tie (F64.scale n d s).1 (F64.scale n d s).2 hD
  rw [hval] at herr htie
  generalize F64.roundQuot (F64.scale n d s).1 (F64.scale n d s).2 = q at hr herr htie
  have hval2 : ((F64.roundPos n d).1 : ℚ) * 2 ^ (F64.roundPos n d).2 = q * 2 ^ s := by
    rw [hr]
    split_ifs with h
    · simp only [h]
      rw [zpow_add₀ (by norm_num : (2 : ℚ) ≠ 0)]
      push_cast
      ring
    · rfl
  have heven : q % 2 = 0 → (F64.roundPos n d).1 % 2 = 0 := by
    intro hq
    rw [hr]
    split_ifs with h
    · norm_num
    · exact hq
  obtain ⟨hnear, hties⟩ := F64.nearest_at_scale ((n : ℚ) / d) s q hy1 herr w hw
  rw [hval2]
  exact ⟨hnear, fun hne heq => heven (htie (hties hne heq))⟩

/-- The rounding of `round` is the `roundTiesToEven` of IEEE-754: the result is a
floating-point number nearest to `n / d`, and whenever another floating-point number
is equally near, the significand of the result is even. -/
theorem F64.round_nearest (n : Int) (d : Nat) (hd : 0 < d) (w : F64) (hw : w.Canonical) :
    |(F64.round n d).toRat - (n : ℚ) / d| ≤ |w.toRat - (n : ℚ) / d| ∧
      (w.toRat ≠ (F64.round n d).toRat →
        |w.toRat - (n : ℚ) / d| = |(F64.round n d).toRat - (n : ℚ) / d| →
        (F64.round n d).m % 2 = 0) := by
  have hdq : (0 : ℚ) < d := by exact_mod_cast hd
  by_cases hn : n = 0
  · subst hn
    simp [F64.round, F64.toRat]
  · have habs : 0 < n.natAbs := Int.natAbs_pos.mpr hn
    have hround : F64.round n d =
        ⟨if n < 0 then -((F64.roundPos n.natAbs d).1 : Int) else (F64.roundPos n.natAbs d).1,
          (F64.roundPos n.natAbs d).2⟩ := by
      simp [F64.round, hn, hd.ne']
    have hN : ((n.natAbs : ℕ) : ℚ) = |(n : ℚ)| := by
      rw [Nat.cast_natAbs, Int.cast_abs]
    by_cases hneg : n < 0
    · have hnq : (n : ℚ) < 0 := by exact_mod_cast hneg
      have hcast : (n : ℚ) = -((n.natAbs : ℕ) : ℚ) := by
        rw [hN, abs_of_neg hnq, neg_neg]
      have hwneg : (⟨-w.m, w.e⟩ : F64).Canonical := by
        rcases hw with ⟨hm, he⟩ | ⟨hlo, hhi⟩
        · exact Or.inl ⟨by simp [hm], he⟩
        · exact Or.inr ⟨by simpa using hlo, by simpa using hhi⟩
      have hwval : (⟨-w.m, w.e⟩ : F64).toRat = -w.toRat := by
        simp [F64.toRat]
      obtain ⟨h1, h2⟩ := F64.roundPos_nearest n.natAbs d habs hd ⟨-w.m, w.e⟩ hwneg
      rw [hwval] at h1 h2
      rw [hround]
      generalize F64.roundPos n.natAbs d = r at h1 h2
      have e1 : (⟨if n < 0 then -(r.1 : Int) else (r.1 : Int), r.2⟩ : F64).toRat =
          -((r.1 : ℚ) * 2 ^ r.2) := by
        simp [F64.toRat, hneg]
      have e2 : ∀ v : ℚ, |-v - (n : ℚ) / d| = |v - ((n.natAbs : ℕ) : ℚ) / d| := by
        intro v
        rw [hcast, neg_div, ← abs_neg]
        congr 1
        ring
      have e3 : |w.toRat - (n : ℚ) / d| = |-w.toRat - ((n.natAbs : ℕ) : ℚ) / d| := by
        rw [hcast, neg_div, ← abs_neg]
        congr 1
        ring
      rw [e1, e2, e3]
      refine ⟨h1, fun hne heq => ?_⟩
      have hmod := h2 (fun h => hne (by linarith)) heq
      simp only [if_pos hneg]
      omega
    · have hnq : (0 : ℚ) ≤ n := by exact_mod_cast not_lt.mp hneg
      have hcast : (n : ℚ) = ((n.natAbs : ℕ) : ℚ) := by
        rw [hN, abs_of_nonneg hnq]
      obtain ⟨h1, h2⟩ := F64.roundPos_nearest n.natAbs d habs hd w hw
      rw [hround, hcast]
      generalize F64.roundPos n.natAbs d = r at h1 h2
      have e1 : (⟨if n < 0 then -(r.1 : Int) else (r.1 : Int), r.2⟩ : F64).toRat =
          (r.1 : ℚ) * 2 ^ r.2 := by
        simp [F64.toRat, hneg]
      rw [e1]
      refine ⟨h1, fun hne heq => ?_⟩
      have hmod := h2 hne heq
      simp only [if_neg hneg]
      omega

end Nearest

/-! ## The arithmetic of `F64` is correctly rounded -/

section Arithmetic

/-- Floating-point addition is the exact sum, rounded with relative error at most
`2 ^ -53`. -/
theorem F64.add_spec (a b : F64) :
    (a + b).Canonical ∧
      |(a + b).toRat - (a.toRat + b.toRat)| ≤ |a.toRat + b.toRat| * 2 ^ (-53 : ℤ) := by
  have h := F64.ofDyadic_spec
    (a.m * 2 ^ (a.e - min a.e b.e).toNat + b.m * 2 ^ (b.e - min a.e b.e).toNat) (min a.e b.e)
  have hpos : (0 : ℚ) < 2 ^ (min a.e b.e) := zpow_pos (by norm_num) _
  have hv : ((a.m * 2 ^ (a.e - min a.e b.e).toNat + b.m * 2 ^ (b.e - min a.e b.e).toNat : ℤ) : ℚ)
      * 2 ^ (min a.e b.e) = a.toRat + b.toRat := by
    rw [Int.cast_add, F64.aligned_toRat a _ (min_le_left _ _),
      F64.aligned_toRat b _ (min_le_right _ _)]
    field_simp
  rw [hv] at h
  exact h

/-- Floating-point subtraction is the exact difference, rounded with relative error
at most `2 ^ -53`. -/
theorem F64.sub_spec (a b : F64) :
    (a - b).Canonical ∧
      |(a - b).toRat - (a.toRat - b.toRat)| ≤ |a.toRat - b.toRat| * 2 ^ (-53 : ℤ) := by
  have h := F64.ofDyadic_spec
    (a.m * 2 ^ (a.e - min a.e b.e).toNat - b.m * 2 ^ (b.e - min a.e b.e).toNat) (min a.e b.e)
  have hpos : (0 : ℚ) < 2 ^ (min a.e b.e) := zpow_pos (by norm_num) _
  have hv : ((a.m * 2 ^ (a.e - min a.e b.e).toNat - b.m * 2 ^ (b.e - min a.e b.e).toNat : ℤ) : ℚ)
      * 2 ^ (min a.e b.e) = a.toRat - b.toRat := by
    rw [Int.cast_sub, F64.aligned_toRat a _ (min_le_left _ _),
      F64.aligned_toRat b _ (min_le_right _ _)]
    field_simp
  rw [hv] at h
  exact h

/-- A decimal literal denotes its value rounded with relative error at most
`2 ^ -53`. -/
theorem F64.ofScientific_spec (mantissa : Nat) (exponentSign : Bool) (decimalExponent : Nat) :
    (OfScientific.ofScientific mantissa exponentSign decimalExponent : F64).Canonical ∧
      |(OfScientific.ofScientific mantissa exponentSign decimalExponent : F64).toRat -
          (if exponentSign then (mantissa : ℚ) / 10 ^ decimalExponent
            else (mantissa : ℚ) * 10 ^ decimalExponent)| ≤
        |(if exponentSign then (mantissa : ℚ) / 10 ^ decimalExponent
            else (mantissa : ℚ) * 10 ^ decimalExponent)| * 2 ^ (-53 : ℤ) := by
  show (F64.ofScientific mantissa exponentSign decimalExponent).Canonical ∧ _
  show _ ∧ |(F64.ofScientific mantissa exponentSign decimalExponent).toRat - _| ≤ _
  unfold F64.ofScientific
  cases exponentSign with
  | true =>
    have h := F64.round_spec mantissa (10 ^ decimalExponent) (by positivity)
    simpa using h
  | false =>
    have h := F64.round_spec (mantissa * 10 ^ decimalExponent) 1 (by norm_num)
    simpa using h

/-- Floating-point division by a non-zero number is the exact quotient, rounded
with relative error at most `2 ^ -53`. -/
theorem F64.div_spec (a b : F64) (hb : b.m ≠ 0) :
    (a / b).Canonical ∧
      |(a / b).toRat - a.toRat / b.toRat| ≤ |a.toRat / b.toRat| * 2 ^ (-53 : ℤ) := by
  have hbabs : 0 < b.m.natAbs := Int.natAbs_pos.mpr hb
  have hbq : (b.m : ℚ) ≠ 0 := by exact_mod_cast hb
  have hN : ((b.m.natAbs : ℕ) : ℚ) = |(b.m : ℚ)| := by
    rw [Nat.cast_natAbs, Int.cast_abs]
  have hsign : ((if b.m < 0 then -a.m else a.m : ℤ) : ℚ) / |(b.m : ℚ)| = (a.m : ℚ) / b.m := by
    by_cases hneg : b.m < 0
    · have : (b.m : ℚ) < 0 := by exact_mod_cast hneg
      rw [if_pos hneg, abs_of_neg this]
      push_cast
      rw [neg_div_neg_eq]
    · have : (0 : ℚ) ≤ b.m := by exact_mod_cast not_lt.mp hneg
      rw [if_neg hneg, abs_of_nonneg this]
  have hval : a.toRat / b.toRat = (a.m : ℚ) / b.m * 2 ^ (a.e - b.e) := by
    rw [F64.toRat, F64.toRat, zpow_sub₀ (by norm_num : (2 : ℚ) ≠ 0)]
    field_simp
  show (F64.div a b).Canonical ∧ |(F64.div a b).toRat - _| ≤ _
  unfold F64.div
  simp only
  rw [hval, ← hsign]
  generalize (if b.m < 0 then -a.m else a.m) = n
  split_ifs with h
  · have h2 : (2 : ℚ) ^ (a.e - b.e) = 2 ^ (a.e - b.e).toNat := by
      rw [← zpow_natCast, Int.toNat_of_nonneg h]
    have := F64.round_spec (n * 2 ^ (a.e - b.e).toNat) b.m.natAbs hbabs
    rw [h2]
    push_cast at this ⊢
    rw [hN] at this
    rw [div_mul_eq_mul_div]
    exact this
  · have hs : 0 ≤ -(a.e - b.e) := by omega
    have h2 : (2 : ℚ) ^ (a.e - b.e) = (2 ^ (-(a.e - b.e)).toNat)⁻¹ := by
      rw [← zpow_natCast, Int.toNat_of_nonneg hs, zpow_neg, inv_inv]
    have := F64.round_spec n (b.m.natAbs * 2 ^ (-(a.e - b.e)).toNat) (by positivity)
    rw [h2]
    push_cast at this ⊢
    rw [hN] at this
    rw [← div_eq_mul_inv, div_div]
    exact this

/-- An integer literal denotes its value rounded with relative error at most
`2 ^ -53`. -/
theorem F64.natCast_spec (n : Nat) :
    ((n : Nat) : F64).Canonical ∧
      |((n : Nat) : F64).toRat - (n : ℚ)| ≤ |(n : ℚ)| * 2 ^ (-53 : ℤ) := by
  have h := F64.round_spec n 1 (by norm_num)
  simpa using h

end Arithmetic

/-! ## Progress in binary floating point -/

section Progress

theorem lap_length : lap.length = 100 := by decide!

/-- One tick moves the progress from each entry of the lap to the next one, and
from the last entry back to the first. -/
theorem lap_step : ∀ i < 100,
    progressUpdater (lap.getD i 0.0) = lap.getD ((i + 1) % 100) 0.0 := by
  decide!

/-- Every entry of the lap is at least 0 and below 1. -/
theorem lap_bounds : ∀ i < 100, ¬ lap.getD i 0.0 < (0.0 : F64) ∧ lap.getD i 0.0 < (1.0 : F64) := by
  decide!

variable [MathLib F64]

/-- In normal flow the stored progress is always an entry of the lap. -/
theorem run_progress_on_lap (ops : List (Op F64)) :
    ∃ i < 100, (run ops).progress = lap.getD i 0.0 := by
  have hstep : ∀ (st : AppState F64) (op : Op F64),
      (∃ i < 100, st.progress = lap.getD i 0.0) →
      ∃ i < 100, (step st op).progress = lap.getD i 0.0 := by
    intro st op ⟨i, hi, h⟩
    cases op with
    | tick random =>
      refine ⟨(i + 1) % 100, Nat.mod_lt _ (by norm_num), ?_⟩
      rw [step, updateSpeedAndLocation_progress, h, lap_step i hi]
    | reset => exact ⟨0, by norm_num, rfl⟩
  have hfold : ∀ (l : List (Op F64)) (st : AppState F64),
      (∃ i < 100, st.progress = lap.getD i 0.0) →
      ∃ i < 100, (l.foldl step st).progress = lap.getD i 0.0 := by
    intro l
    induction l with
    | nil => intro st h; exact h
    | cons op rest ih => intro st h; exact ih _ (hstep st op h)
  exact hfold ops initialState ⟨0, by norm_num, rfl⟩

/-- Claim C4.  In every state reachable from the initial state by any sequence of
ticks and resets, the stored progress, a binary64 number, satisfies
`0 ≤ progress < 1`. -/
theorem progress_in_unit_interval (ops : List (Op F64)) :
    0 ≤ (run ops).progress.toRat ∧ (run ops).progress.toRat < 1 := by
  obtain ⟨i, hi, h⟩ := run_progress_on_lap ops
  have hb := lap_bounds i hi
  rw [F64.lt_iff_toRat, F64.lt_iff_toRat, F64.toRat_zero, F64.toRat_one, ← h] at hb
  exact ⟨not_lt.mp hb.1, hb.2⟩

omit [MathLib F64] in
theorem ticks_succ {α : Type} (random : Nat → α) (n : Nat) :
    ticks random (n + 1) = ticks random n ++ [Op.tick (random n)] := by
  simp [ticks, List.range_succ]

omit [MathLib F64] in
theorem run_concat {α : Type} [Add α] [Sub α] [Mul α] [Div α] [LT α]
    [DecidableRel (fun a b : α => a < b)] [NatCast α] [OfScientific α] [MathLib α]
    [NumberLib α] (ops : List (Op α)) (op : Op α) :
    run (ops ++ [op]) = step (run ops) op := by
  simp [run, List.foldl_append]

/-- After `n` ticks from the start the stored progress is entry `n mod 100` of the
lap. -/
theorem run_ticks_progress (random : Nat → F64) (n : Nat) :
    (run (ticks random n)).progress = lap.getD (n % 100) 0.0 := by
  induction n with
  | zero => rfl
  | succ n ih =>
    rw [ticks_succ, run_concat, step, updateSpeedAndLocation_progress, ih,
      lap_step _ (Nat.mod_lt _ (by norm_num)), Nat.add_mod, Nat.mod_mod, ← Nat.add_mod]

/-- Claim C5.  Starting from progress 0, among the first 100 ticks exactly one takes
the wrap branch of the progress update (`newProgress > 1.0`), and the stored
progress is back at 0.0 after the 100th tick (binary64 arithmetic). -/
theorem wraps_once_in_100_ticks (random : Nat → F64) :
    ((List.range 100).filter (fun i =>
        (run (ticks random i)).progress + progressIncrement > 1.0)).length = 1 ∧
      (run (ticks random 100)).progress = 0.0 := by
  constructor
  · have hcongr : (List.range 100).filter (fun i =>
          decide ((run (ticks random i)).progress + progressIncrement > 1.0)) =
        (List.range 100).filter (fun i =>
          decide (lap.getD (i % 100) 0.0 + progressIncrement > (1.0 : F64))) := by
      apply List.filter_congr
      intro i _
      rw [run_ticks_progress]
    rw [hcongr]
    decide!
  · rw [run_ticks_progress]
    decide!

/-- Claim C3 fails on the tick on which the progress wraps (the 100th from the
start, binary64 arithmetic): the stored progress becomes 0.0 while the stored
vehicle position is the route end `[LAT_END, LON_END]`, not the interpolation of the
stored progress, which is the route start. -/
theorem wrap_tick_position (random : Nat → F64) :
    (run (ticks random 100)).progress = 0.0 ∧
      (run (ticks random 100)).vehiclePosition = (LAT_END, LON_END) ∧
      routePoint (run (ticks random 100)).progress = (LAT_START, LON_START) ∧
      (run (ticks random 100)).vehiclePosition ≠
        routePoint (run (ticks random 100)).progress := by
  have hprog : (run (ticks random 100)).progress = 0.0 := by
    rw [run_ticks_progress]
    decide!
  have hpos : (run (ticks random 100)).vehiclePosition = (LAT_END, LON_END) := by
    rw [ticks_succ, run_concat, step, updateSpeedAndLocation_vehiclePosition,
      run_ticks_progress]
    decide!
  refine ⟨hprog, hpos, ?_, ?_⟩
  · rw [hprog]
    decide!
  · rw [hprog, hpos]
    decide!

end Progress

/-! ## Progress in exact arithmetic, for comparison -/

section ExactProgress

/-- In exact arithmetic the sum `0.01 + ... + 0.01` of 100 terms is exactly 1, which
is not greater than 1.0: the progress after `n ≤ 100` ticks is `n / 100`, so it
reaches 1 and no tick among the first 100 wraps.  The binary64 sum is
`1.0000000000000007`, which is why `F64` decides the claims about progress. -/
theorem exact_progress_after (random : Nat → ℝ) (n : Nat) (hn : n ≤ 100) :
    (run (ticks random n)).progress = (n : ℝ) / 100 := by
  induction n with
  | zero =>
    simp only [ticks, run, initialState, List.range_zero, List.map_nil, List.foldl_nil]
    norm_num
  | succ n ih =>
    have hle : ((n : ℝ) + 1) ≤ 100 := by exact_mod_cast hn
    rw [ticks_succ, run_concat, step, updateSpeedAndLocation_progress, ih (by omega),
      progressUpdater, progressIncrement]
    have hnot : ¬ ((n : ℝ) / 100 + 0.01 > 1.0) := by
      rw [not_lt]
      have : (n : ℝ) / 100 + 0.01 = ((n : ℝ) + 1) / 100 := by ring
      rw [this]
      norm_num
      linarith
    simp only [hnot, if_false]
    push_cast
    ring

end ExactProgress

/-! ## The speed of a tick -/

section Speed

/-- A floating-point number proper in `[0, 1)` is at most `1 - 2 ^ -53`. -/
theorem F64.le_pred_one (r : F64) (hr : r.Canonical) (h0 : 0 ≤ r.toRat) (h1 : r.toRat < 1) :
    r.toRat ≤ 1 - 2 ^ (-53 : ℤ) := by
  have hpow : (0 : ℚ) < 2 ^ r.e := zpow_pos (by norm_num) _
  rcases hr with ⟨hm, -⟩ | ⟨hlo, hhi⟩
  · rw [F64.toRat, hm]
    norm_num [zpow_neg]
  · have hm0 : 0 ≤ r.m := by
      by_contra hneg
      have : (r.m : ℚ) < 0 := by exact_mod_cast not_le.mp hneg
      have : r.toRat < 0 := mul_neg_of_neg_of_pos this hpow
      linarith
    have hmlo : (2 : ℚ) ^ 52 ≤ r.m := by
      have : (2 : ℤ) ^ 52 ≤ r.m := by omega
      exact_mod_cast this
    have hmhi : (r.m : ℚ) ≤ 2 ^ 53 - 1 := by
      have : r.m ≤ (2 : ℤ) ^ 53 - 1 := by omega
      exact_mod_cast this
    have he : r.e ≤ -53 := by
      by_contra hge
      have h52 : (-52 : ℤ) ≤ r.e := by omega
      have hz : (2 : ℚ) ^ (-52 : ℤ) ≤ 2 ^ r.e := zpow_le_zpow_right₀ (by norm_num) h52
      have : (1 : ℚ) ≤ r.toRat := by
        calc (1 : ℚ) = 2 ^ 52 * 2 ^ (-52 : ℤ) := by norm_num [zpow_neg]
          _ ≤ r.m * 2 ^ r.e := mul_le_mul hmlo hz (by positivity) (by linarith)
      linarith
    have hz : (2 : ℚ) ^ r.e ≤ 2 ^ (-53 : ℤ) := zpow_le_zpow_right₀ (by norm_num) he
    calc r.toRat = r.m * 2 ^ r.e := rfl
      _ ≤ (2 ^ 53 - 1) * 2 ^ (-53 : ℤ) :=
        mul_le_mul hmhi hz hpow.le (by norm_num)
      _ = 1 - 2 ^ (-53 : ℤ) := by norm_num [zpow_neg]

theorem F64.speed_factor :
    ((120 : Nat) : F64) - ((20 : Nat) : F64) + ((1 : Nat) : F64) = ⟨7107243161944064, -46⟩ := by
  decide!

/-- The speed of a tick is `newSpeed` of its random sample. -/
theorem updateSpeedAndLocation_speed {α : Type} [Add α] [Sub α] [Mul α] [Div α]
    [LT α] [DecidableRel (fun a b : α => a < b)] [NatCast α] [OfScientific α] [MathLib α]
    [NumberLib α] (progress random : α) (st : AppState α) :
    (updateSpeedAndLocation progress random st).speed = newSpeed random := rfl

/-- For a binary64 sample in `[0, 1)` the speed lies in `[20, 120]`. -/
theorem newSpeed_bounds (r : F64) (hr : r.Canonical) (h0 : 0 ≤ r.toRat) (h1 : r.toRat < 1) :
    20 ≤ newSpeed r ∧ newSpeed r ≤ 120 := by
  have hle := F64.le_pred_one r hr h0 h1
  obtain ⟨-, herr⟩ := F64.mul_spec r ⟨7107243161944064, -46⟩
  have hc : (⟨7107243161944064, -46⟩ : F64).toRat = 101 := by
    norm_num [F64.toRat, zpow_neg]
  have habs : |r.toRat * 101| = r.toRat * 101 := abs_of_nonneg (mul_nonneg h0 (by norm_num))
  rw [hc, habs] at herr
  obtain ⟨hlo, hhi⟩ := abs_le.mp herr
  have h53 : (2 : ℚ) ^ (-53 : ℤ) = 1 / 9007199254740992 := by norm_num [zpow_neg]
  rw [h53] at hlo hhi hle
  have hv0 : 0 ≤ (r * (⟨7107243161944064, -46⟩ : F64)).toRat := by nlinarith
  have hv1 : (r * (⟨7107243161944064, -46⟩ : F64)).toRat < 101 := by nlinarith
  have hf0 : 0 ≤ ⌊(r * (⟨7107243161944064, -46⟩ : F64)).toRat⌋ := Int.floor_nonneg.mpr hv0
  have hf1 : ⌊(r * (⟨7107243161944064, -46⟩ : F64)).toRat⌋ < 101 :=
    Int.floor_lt.mpr (by exact_mod_cast hv1)
  have hs : newSpeed r = ⌊(r * (⟨7107243161944064, -46⟩ : F64)).toRat⌋ + 20 := by
    rw [newSpeed, F64.speed_factor, ← F64.floor_eq]
    rfl
  rw [hs]
  constructor <;> omega

theorem newSpeed_samples : ∀ k : Nat, k < 101 →
    (F64.round (2 * (k : Int) + 1) 202).Canonical ∧
      ¬ F64.round (2 * (k : Int) + 1) 202 < (0.0 : F64) ∧
      F64.round (2 * (k : Int) + 1) 202 < (1.0 : F64) ∧
      newSpeed (F64.round (2 * (k : Int) + 1) 202) = (k : Int) + 20 := by
  decide!

/-- Claim C6.  For every random sample `r` with `0 ≤ r < 1`, a binary64 number, the
speed computed by a tick, `floor(r * (120 - 20 + 1)) + 20`, is an integer `s` with
`20 ≤ s ≤ 120`; and every integer in `[20, 120]` is produced by some such sample. -/
theorem newSpeed_range (r : F64) (hr : r.Canonical) (h0 : 0 ≤ r.toRat) (h1 : r.toRat < 1)
    (s : Int) (hs : 20 ≤ s ∧ s ≤ 120) :
    (20 ≤ newSpeed r ∧ newSpeed r ≤ 120) ∧
      ∃ sample : F64, sample.Canonical ∧ 0 ≤ sample.toRat ∧ sample.toRat < 1 ∧
        newSpeed sample = s := by
  refine ⟨newSpeed_bounds r hr h0 h1, ?_⟩
  obtain ⟨hc, hge, hlt, hsp⟩ := newSpeed_samples (s - 20).toNat (by omega)
  rw [F64.lt_iff_toRat, F64.toRat_zero] at hge
  rw [F64.lt_iff_toRat, F64.toRat_one] at hlt
  refine ⟨_, hc, not_lt.mp hge, hlt, ?_⟩
  rw [hsp]
  omega

theorem F64.toRat_half : (0.5 : F64).toRat = 1 / 2 := by
  have h : (0.5 : F64) = ⟨2 ^ 52, -53⟩ := by decide!
  rw [h, F64.toRat]
  norm_num [zpow_neg]

/-- Claim C6 at the sample 0.5 and the speed 57. -/
theorem newSpeed_range_witness :
    (F64.Canonical 0.5 ∧ 0 ≤ (0.5 : F64).toRat ∧ (0.5 : F64).toRat < 1 ∧
        ((20 : Int) ≤ 57 ∧ (57 : Int) ≤ 120)) ∧
      ((20 ≤ newSpeed (0.5 : F64) ∧ newSpeed (0.5 : F64) ≤ 120) ∧
        ∃ sample : F64, sample.Canonical ∧ 0 ≤ sample.toRat ∧ sample.toRat < 1 ∧
          newSpeed sample = 57) :=
  ⟨⟨by decide!, by rw [F64.toRat_half]; norm_num, by rw [F64.toRat_half]; norm_num,
      by decide!⟩,
    newSpeed_range 0.5 (by decide!) (by rw [F64.toRat_half]; norm_num)
      (by rw [F64.toRat_half]; norm_num) 57 (by decide!)⟩

end Speed

/-! ## Supplements in binary floating point -/

section Supplements

theorem F64.round_zero (d : Nat) : F64.round 0 d = ⟨0, 0⟩ := by
  simp [F64.round]

theorem F64.ofDyadic_zero (e : Int) : F64.ofDyadic 0 e = ⟨0, 0⟩ := by
  unfold F64.ofDyadic
  split_ifs <;> simp [F64.round_zero]

theorem F64.sub_self_eq (a : F64) : a - a = ⟨0, 0⟩ := by
  show F64.sub a a = _
  simp [F64.sub, F64.ofDyadic_zero]

theorem F64.zero_mul_eq (b : F64) : (⟨0, 0⟩ : F64) * b = ⟨0, 0⟩ := by
  show F64.mul _ b = _
  simp [F64.mul, F64.ofDyadic_zero]

theorem F64.mul_zero_eq (a : F64) : a * (⟨0, 0⟩ : F64) = ⟨0, 0⟩ := by
  show F64.mul a _ = _
  simp [F64.mul, F64.ofDyadic_zero]

theorem F64.zero_div_eq (b : F64) : (⟨0, 0⟩ : F64) / b = ⟨0, 0⟩ := by
  show F64.div _ b = _
  unfold F64.div
  simp only [neg_zero, ite_self, zero_mul]
  split_ifs <;> exact F64.round_zero _

/-- The self-distance in binary64: when the Math library returns zero for `sin(0)`, `sqrt(0)`
and `atan2(0, 1)` and one for `sqrt(1)`, as ECMAScript and IEEE-754 prescribe, the
haversine distance from any point to itself is zero. -/
theorem geodesic_self_binary64 [MathLib F64]
    (hsin : MathLib.sin (⟨0, 0⟩ : F64) = ⟨0, 0⟩)
    (hsqrt0 : MathLib.sqrt (⟨0, 0⟩ : F64) = ⟨0, 0⟩)
    (hsqrt1 : MathLib.sqrt (⟨2 ^ 52, -52⟩ : F64) = ⟨2 ^ 52, -52⟩)
    (hatan2 : MathLib.atan2 (⟨0, 0⟩ : F64) ⟨2 ^ 52, -52⟩ = ⟨0, 0⟩)
    (p : F64 × F64) : geodesic p p = ⟨0, 0⟩ := by
  have h00 : (⟨0, 0⟩ : F64) + ⟨0, 0⟩ = ⟨0, 0⟩ := by decide!
  have h10 : (((1 : Nat) : F64)) - ⟨0, 0⟩ = ⟨2 ^ 52, -52⟩ := by decide!
  simp only [geodesic, F64.sub_self_eq, F64.zero_mul_eq, F64.zero_div_eq, hsin,
    F64.mul_zero_eq, h00, hsqrt0, h10, hsqrt1, hatan2]

/-- On a tick that does not wrap, and in every number model, the stored vehicle
position is the interpolation of the stored progress. -/
theorem position_follows_progress {α : Type} [Add α] [Sub α] [Mul α] [Div α] [LT α]
    [DecidableRel (fun a b : α => a < b)] [NatCast α] [OfScientific α] [MathLib α]
    [NumberLib α] (st : AppState α) (random : α)
    (hnowrap : ¬ st.progress + progressIncrement > 1.0) :
    (step st (.tick random)).vehiclePosition =
      routePoint (step st (.tick random)).progress := by
  rw [step, updateSpeedAndLocation_vehiclePosition, updateSpeedAndLocation_progress,
    progressUpdater]
  simp only [hnowrap, if_false]

/-- After a reset, in binary64 and in exact arithmetic, the stored vehicle position
is the interpolation of the stored progress. -/
theorem position_follows_progress_reset :
    (∀ st : AppState F64,
        (resetPosition st).vehiclePosition = routePoint (resetPosition st).progress) ∧
      (∀ st : AppState ℝ,
        (resetPosition st).vehiclePosition = routePoint (resetPosition st).progress) := by
  constructor
  · intro st
    simp only [resetPosition]
    decide!
  · intro st
    simp only [resetPosition, routePoint]
    norm_num

/-- The vehicle positions of the ticks 20, 40, 60 and 80 in binary64: the first
three are the camera waypoints 1, 2 and 3 bit for bit, the fourth differs from
waypoint 4 (its latitude is `12.430959999999999`, the waypoint has `12.43096`). -/
theorem binary64_positions_at_cameras [MathLib F64] (random : Nat → F64) :
    (run (ticks random 20)).vehiclePosition = routePoint 0.2 ∧
      (run (ticks random 40)).vehiclePosition = routePoint 0.4 ∧
      (run (ticks random 60)).vehiclePosition = routePoint 0.6 ∧
      (run (ticks random 80)).vehiclePosition ≠ routePoint 0.8 := by
  have hpos : ∀ n, (run (ticks random (n + 1))).vehiclePosition =
      routePoint (lap.getD (n % 100) 0.0 + progressIncrement) := by
    intro n
    rw [ticks_succ, run_concat, step, updateSpeedAndLocation_vehiclePosition,
      run_ticks_progress]
  have h20 : routePoint (lap.getD (19 % 100) 0.0 + progressIncrement) =
      routePoint (0.2 : F64) := by decide!
  have h40 : routePoint (lap.getD (39 % 100) 0.0 + progressIncrement) =
      routePoint (0.4 : F64) := by decide!
  have h60 : routePoint (lap.getD (59 % 100) 0.0 + progressIncrement) =
      routePoint (0.6 : F64) := by decide!
  have h80 : routePoint (lap.getD (79 % 100) 0.0 + progressIncrement) ≠
      routePoint (0.8 : F64) := by decide!
  rw [hpos 19, hpos 39, hpos 59, hpos 79]
  exact ⟨h20, h40, h60, h80⟩

end Supplements

/-! ## The ticks at the cameras in binary floating point -/

section CameraTicks

/-- The vehicle position after `n + 1` ticks from the start, in binary64. -/
theorem run_ticks_vehiclePosition [MathLib F64] (random : Nat → F64) (n : Nat) :
    (run (ticks random (n + 1))).vehiclePosition =
      routePoint (lap.getD (n % 100) 0.0 + progressIncrement) := by
  rw [ticks_succ, run_concat, step, updateSpeedAndLocation_vehiclePosition,
    run_ticks_progress]

/-- The alert message after `n + 1` ticks from the start. -/
theorem run_ticks_alertMessage [MathLib F64] (random : Nat → F64) (n : Nat) :
    (run (ticks random (n + 1))).alertMessage =
      if ∃ camera ∈ aiCameraLocations (α := F64),
        geodesic (run (ticks random (n + 1))).vehiclePosition camera < alertDistance
      then cameraWarning else "" := by
  rw [ticks_succ, run_concat, step, updateSpeedAndLocation_alertMessage,
    updateSpeedAndLocation_vehiclePosition]

/-- A tick that computes a camera waypoint bit for bit, under a Math library that is
exact at the zero cases: the distance to that waypoint is zero and the alert is on. -/
theorem alert_on_camera [MathLib F64]
    (hsin : MathLib.sin (0.0 : F64) = 0.0)
    (hsqrt0 : MathLib.sqrt (0.0 : F64) = 0.0)
    (hsqrt1 : MathLib.sqrt (1.0 : F64) = 1.0)
    (hatan2 : MathLib.atan2 (0.0 : F64) 1.0 = 0.0)
    (random : Nat → F64) (n : Nat) (camera : F64 × F64)
    (hcam : camera ∈ aiCameraLocations (α := F64))
    (hpos : (run (ticks random (n + 1))).vehiclePosition = camera) :
    geodesic (run (ticks random (n + 1))).vehiclePosition camera = 0.0 ∧
      (run (ticks random (n + 1))).alertMessage = cameraWarning := by
  have h0 : (0.0 : F64) = ⟨0, 0⟩ := by decide!
  have h1 : (1.0 : F64) = ⟨2 ^ 52, -52⟩ := by decide!
  rw [h0] at hsin hsqrt0
  rw [h1] at hsqrt1
  rw [h0, h1] at hatan2
  have hzero : geodesic camera camera = 0.0 := by
    rw [h0]
    exact geodesic_self_binary64 hsin hsqrt0 hsqrt1 hatan2 camera
  have hlt : (0.0 : F64) < alertDistance := by decide!
  refine ⟨by rw [hpos, hzero], ?_⟩
  rw [run_ticks_alertMessage, if_pos]
  exact ⟨camera, hcam, by rw [hpos, hzero]; exact hlt⟩

/-- Claim C10, refuted as stated for the arithmetic the program runs: on the 80th
tick from the initial state (stored progress `0.7900000000000005`) the program
computes the latitude `12.430959999999999`, one unit in the last place below the
latitude `12.43096` of the fourth camera waypoint, so the vehicle position is not
that waypoint. -/
theorem tick_80_misses_camera :
    (sampleRun 79).progress = ⟨7115687411245388, -53⟩ ∧
      (sampleRun 80).vehiclePosition =
        (⟨6998008352982192, -49⟩, ⟨5406461577417363, -46⟩) ∧
      (aiCameraLocations (α := F64))[3]? =
        some (⟨6998008352982193, -49⟩, ⟨5406461577417363, -46⟩) ∧
      (aiCameraLocations (α := F64))[3]? ≠ some (sampleRun 80).vehiclePosition := by
  letI : MathLib F64 := sampleMathLib
  have hprog : (sampleRun 79).progress = ⟨7115687411245388, -53⟩ := by
    rw [sampleRun, run_ticks_progress]
    decide!
  have hpos : (sampleRun 80).vehiclePosition =
      (⟨6998008352982192, -49⟩, ⟨5406461577417363, -46⟩) := by
    rw [sampleRun, run_ticks_vehiclePosition]
    decide!
  have hcam : (aiCameraLocations (α := F64))[3]? =
      some (⟨6998008352982193, -49⟩, ⟨5406461577417363, -46⟩) := by decide!
  refine ⟨hprog, hpos, hcam, ?_⟩
  rw [hpos, hcam]
  decide!

/-- Claim C10, amended.  In the binary64 arithmetic the program runs, for `k` in
1..3 (here `k.val + 1`) the tick number `20 * k` from the initial state computes a
vehicle position equal to the `k`-th camera waypoint bit for bit; when the Math
library is exact at `sin(0)`, `sqrt(0)`, `sqrt(1)` and `atan2(0, 1)`, the haversine
distance from it to that waypoint is 0 and `checkNearbyCameras` activates the alert.
The tick number 80 computes a position that is not the fourth waypoint. -/
theorem binary64_ticks_land_on_cameras [MathLib F64]
    (hsin : MathLib.sin (0.0 : F64) = 0.0)
    (hsqrt0 : MathLib.sqrt (0.0 : F64) = 0.0)
    (hsqrt1 : MathLib.sqrt (1.0 : F64) = 1.0)
    (hatan2 : MathLib.atan2 (0.0 : F64) 1.0 = 0.0)
    (random : Nat → F64) (k : Fin 3) :
    (∃ camera, (aiCameraLocations (α := F64))[k.val]? = some camera ∧
        (run (ticks random (20 * (k.val + 1)))).vehiclePosition = camera ∧
        geodesic (run (ticks random (20 * (k.val + 1)))).vehiclePosition camera = 0.0 ∧
        (run (ticks random (20 * (k.val + 1)))).alertMessage = cameraWarning) ∧
      (aiCameraLocations (α := F64))[3]? ≠ some (run (ticks random 80)).vehiclePosition := by
  obtain ⟨h20, h40, h60, h80⟩ := binary64_positions_at_cameras random
  have hland : ∀ (n i : Nat) (camera : F64 × F64),
      (aiCameraLocations (α := F64))[i]? = some camera →
      (run (ticks random (n + 1))).vehiclePosition = camera →
      ∃ camera, (aiCameraLocations (α := F64))[i]? = some camera ∧
        (run (ticks random (n + 1))).vehiclePosition = camera ∧
        geodesic (run (ticks random (n + 1))).vehiclePosition camera = 0.0 ∧
        (run (ticks random (n + 1))).alertMessage = cameraWarning := by
    intro n i camera hcam hpos
    obtain ⟨hd, ha⟩ := alert_on_camera hsin hsqrt0 hsqrt1 hatan2 random n camera
      (List.getElem?_mem hcam) hpos
    exact ⟨camera, hcam, hpos, hd, ha⟩
  have h4 : (aiCameraLocations (α := F64))[3]? = some (routePoint (0.8 : F64)) := rfl
  refine ⟨?_, ?_⟩
  · fin_cases k
    · exact hland 19 0 (routePoint (0.2 : F64)) rfl h20
    · exact hland 39 1 (routePoint (0.4 : F64)) rfl h40
    · exact hland 59 2 (routePoint (0.6 : F64)) rfl h60
  · rw [h4]
    intro h
    exact h80 (Option.some.inj h).symm

/-- Claim C10, amended, under `sampleMathLib`, for the random sample 0.5 on every
tick and the first camera (`k = 1`). -/
theorem binary64_ticks_land_on_cameras_witness :
    letI : MathLib F64 := sampleMathLib
    (MathLib.sin (0.0 : F64) = 0.0 ∧ MathLib.sqrt (0.0 : F64) = 0.0 ∧
        MathLib.sqrt (1.0 : F64) = 1.0 ∧ MathLib.atan2 (0.0 : F64) 1.0 = 0.0) ∧
      ((∃ camera, (aiCameraLocations (α := F64))[0]? = some camera ∧
          (run (ticks (fun _ => (0.5 : F64)) 20)).vehiclePosition = camera ∧
          geodesic (run (ticks (fun _ => (0.5 : F64)) 20)).vehiclePosition camera = 0.0 ∧
          (run (ticks (fun _ => (0.5 : F64)) 20)).alertMessage = cameraWarning) ∧
        (aiCameraLocations (α := F64))[3]? ≠
          some (run (ticks (fun _ => (0.5 : F64)) 80)).vehiclePosition) :=
  ⟨⟨by decide!, by decide!, by decide!, by decide!⟩,
    @binary64_ticks_land_on_cameras sampleMathLib (by decide!) (by decide!) (by decide!)
      (by decide!) (fun _ => 0.5) 0⟩

end CameraTicks

end EyeSpy
